import Mathlib

/-
  Verification development for the nIRC IRC-bot framework (src/nIRC).

  The Python source is shallowly embedded: strings are `List Char` / `String`,
  Python's unbounded non-negative ints are `Nat`, dictionaries are association
  lists with insert-or-overwrite semantics, exceptions are `none` results or an
  `ok` flag, and the two regular expressions of irc.py are translated into
  specialised backtracking matchers that follow the Python `re` engine's
  preference order.
-/

namespace NIRC

/-! ## Python string primitives -/

/-- Python whitespace characters, the set recognised by `str.strip`, `str.split`
    and the regex class `\s` on the ASCII range. -/
def pyIsWs (c : Char) : Bool :=
  c = ' ' ∨ c = '\t' ∨ c = '\n' ∨ c = '\r' ∨ c = '\x0b' ∨ c = '\x0c'

/-- `str.strip()` on a character list: drop whitespace from both ends. -/
def pyStripL (l : List Char) : List Char :=
  ((l.dropWhile pyIsWs).reverse.dropWhile pyIsWs).reverse

/-- `str.strip()` on a `String`. -/
def pyStrip (s : String) : String :=
  (pyStripL s.toList).asString

/-- `str.strip('"')`: drop double quotes from both ends. -/
def pyStripQuotesL (l : List Char) : List Char :=
  ((l.dropWhile (· = '"')).reverse.dropWhile (· = '"')).reverse

/-- `str.split()` with no separator: maximal runs of non-whitespace. -/
def pySplitWs : List Char → List (List Char)
  | [] => []
  | c :: rest =>
    if pyIsWs c then pySplitWs rest
    else (c :: rest.takeWhile (fun d => ¬ pyIsWs d)) ::
      pySplitWs (rest.dropWhile (fun d => ¬ pyIsWs d))
termination_by l => l.length
decreasing_by
  all_goals
    simp only [List.length_cons]
    first
      | omega
      | (have h : (List.dropWhile (fun d => ¬ pyIsWs d) rest).Sublist rest :=
           List.dropWhile_sublist _
         have := h.length_le
         omega)

/-- `str.split(maxsplit=1)` with no separator, following CPython's
    `split_whitespace`: skip leading whitespace, take the first token, skip the
    whitespace run after it, and return the untouched remainder (if any). -/
def pySplitMax1 (l : List Char) : List (List Char) :=
  match l.dropWhile pyIsWs with
  | [] => []
  | c :: rest =>
    let tok := c :: rest.takeWhile (fun d => ¬ pyIsWs d)
    let r := (rest.dropWhile (fun d => ¬ pyIsWs d)).dropWhile pyIsWs
    if r = [] then [tok] else [tok, r]

/-- `str.split(sep)` for a one-character separator: all fields, empties kept. -/
def pySplitChar (sep : Char) : List Char → List (List Char)
  | [] => [[]]
  | c :: rest =>
    if c = sep then [] :: pySplitChar sep rest
    else match pySplitChar sep rest with
      | [] => [[c]]
      | t :: ts => (c :: t) :: ts

/-- `os.path.basename` for POSIX paths: everything after the last `/`. -/
def pyBasenameL (l : List Char) : List Char :=
  (l.reverse.takeWhile (· ≠ '/')).reverse

/-- `os.path.join(a, b)` for POSIX paths (two arguments, as used in dcc.py). -/
def pyJoin (a b : String) : String :=
  if b.toList.head? = some '/' then b
  else if a = "" then b
  else if a.toList.getLast? = some '/' then a ++ b
  else a ++ "/" ++ b

/-- `str.replace(' ', '_')`: one-character replacement is a character map. -/
def pyReplaceSpace (s : String) : String :=
  (s.toList.map (fun c => if c = ' ' then '_' else c)).asString

/-- `str.startswith(pre)` (character-based, like Python). -/
def pyStartsWith (s pre : String) : Bool := pre.toList.isPrefixOf s.toList

/-- The slice `s[n:]` (character-based, like Python). -/
def pyDropChars (s : String) (n : Nat) : String := (s.toList.drop n).asString

/-! ## ip_long_to_dotted (irc.py lines 35-45) -/

/-- First octet: `(ip_long >> 24) & 0xFF`. -/
def octetA (n : Nat) : Nat := (n >>> 24) &&& 0xFF

/-- Second octet: `(ip_long >> 16) & 0xFF`. -/
def octetB (n : Nat) : Nat := (n >>> 16) &&& 0xFF

/-- Third octet: `(ip_long >> 8) & 0xFF`. -/
def octetC (n : Nat) : Nat := (n >>> 8) &&& 0xFF

/-- Fourth octet: `ip_long & 0xFF`. -/
def octetD (n : Nat) : Nat := n &&& 0xFF

/-- `ip_long_to_dotted`: network-byte-order 32-bit integer to dotted quad. -/
def ip_long_to_dotted (n : Nat) : String :=
  toString (octetA n) ++ "." ++ toString (octetB n) ++ "." ++
    toString (octetC n) ++ "." ++ toString (octetD n)

/-! ## The IRC line regex (irc.py lines 25-27)

`IRC_RE = ^(?:[:](\S+) )?(\S+)(?: (?!:)(.+?))?(?: :(.*))?$`

The matcher below follows Python's backtracking engine on this pattern.
Two backtracking branches are pruned because they can never succeed:

* shortening the greedy `\S+` of the prefix or of the command leaves a
  non-whitespace character in front of the required literal space (or of `$`),
  so only the maximal non-whitespace run needs to be tried;
* when the trailing group `(?: :(.*))?` has matched `" :"`, the greedy `(.*)`
  stops at a newline (`.` excludes `\n`) and shrinking it cannot move the
  blocked position, so on `$`-failure the whole alternative fails.

`$` matches at the end of the input or immediately before a final newline.
-/

/-- Match of `(?: :(.*))?$` against the rest of the line: `some tr` when the
    trailing group matched with contents `tr`, `some none` when the group was
    skipped and `$` matched directly, `none` when the whole alternative fails. -/
def contTrail (t : List Char) : Option (Option (List Char)) :=
  match t with
  | ' ' :: ':' :: t2 =>
    let tr := t2.takeWhile (· ≠ '\n')
    if t2.dropWhile (· ≠ '\n') = [] ∨ t2.dropWhile (· ≠ '\n') = ['\n']
    then some (some tr) else none
  | t' => if t' = [] ∨ t' = ['\n'] then some none else none

/-- The lazy middle group `(.+?)` applied at `r1` (just after the space and the
    `(?!:)` check): find the shortest non-empty newline-free prefix whose
    remainder satisfies `contTrail`. Returns the middle and the trailing. -/
def middleSplit : List Char → Option (List Char × Option (List Char))
  | [] => none
  | c :: rest =>
    if c = '\n' then none
    else match contTrail rest with
      | some tr => some ([c], tr)
      | none =>
        match middleSplit rest with
        | some (m, tr) => some (c :: m, tr)
        | none => none

/-- First-preference choice between two alternatives of an optional group. -/
def orElseO {α : Type} : Option α → Option α → Option α
  | some x, _ => some x
  | none, b => b

/-- Match of `(?: (?!:)(.+?))?(?: :(.*))?$` after the command. -/
def afterCommand (r : List Char) : Option (Option (List Char) × Option (List Char)) :=
  orElseO
    (match r with
     | ' ' :: r1 =>
       match r1 with
       | [] => none
       | h :: _ =>
         if h = ':' then none
         else (middleSplit r1).map (fun p => (some p.1, p.2))
     | _ => none)
    ((contTrail r).map (fun tr => ((none : Option (List Char)), tr)))

/-- Match of `(\S+)(?: (?!:)(.+?))?(?: :(.*))?$` (the pattern after the
    optional prefix group). -/
def matchCmd (s : List Char) : Option (List Char × Option (List Char) × Option (List Char)) :=
  let c := s.takeWhile (fun ch => ¬ pyIsWs ch)
  if c = [] then none
  else (afterCommand (s.drop c.length)).map (fun p => (c, p.1, p.2))

/-- Full match of `IRC_RE` (via `re.match`, i.e. anchored at the start):
    groups `(prefix?, command, middle?, trailing?)`, or `none` when the line
    does not match. -/
def matchIRC (s : List Char) : Option (Option (List Char) × List Char × Option (List Char) × Option (List Char)) :=
  orElseO
    (match s with
     | ':' :: s1 =>
       let p := s1.takeWhile (fun ch => ¬ pyIsWs ch)
       if p = [] then none
       else match s1.drop p.length with
         | ' ' :: s2 => (matchCmd s2).map (fun g => (some p, g.1, g.2.1, g.2.2))
         | _ => none
     | _ => none)
    ((matchCmd s).map (fun g => ((none : Option (List Char)), g.1, g.2.1, g.2.2)))

/-! ## Bot._parse_line (irc.py lines 608-624) -/

/-- The parsed record `(prefix, command, target, author_nick, message)`. -/
structure Parsed where
  pfx : String
  command : String
  target : String
  author_nick : String
  message : String
deriving Repr, DecidableEq

/-- The post-regex part of `Bot._parse_line`, split on the match result.
    `none` models the `IndexError` raised by `target_part.split()[0]` when the
    middle part is non-empty but whitespace-only. -/
def parseCore
    (g : Option (Option (List Char) × List Char × Option (List Char) × Option (List Char)))
    (line : String) : Option Parsed :=
  match g with
  | none => some ⟨"", "", "", "", line⟩
  | some (pfxG, cmd, some mp, tr) =>
    match pySplitWs mp with
    | [] => none
    | t0 :: _ =>
      some ⟨(pfxG.getD []).asString, cmd.asString, t0.asString,
        (if (pfxG.getD []).asString ≠ "" ∧ '!' ∈ (pfxG.getD []).asString.toList
         then ((pySplitChar '!' (pfxG.getD []).asString.toList).headD []).asString
         else if (pfxG.getD []).asString ≠ "" then (pfxG.getD []).asString else ""),
        (tr.getD []).asString⟩
  | some (pfxG, cmd, none, tr) =>
    some ⟨(pfxG.getD []).asString, cmd.asString,
      (if (tr.getD []).asString ≠ "" ∧ (tr.getD []).asString.toList.head? = some '#'
       then pyStrip (tr.getD []).asString else ""),
      (if (pfxG.getD []).asString ≠ "" ∧ '!' ∈ (pfxG.getD []).asString.toList
       then ((pySplitChar '!' (pfxG.getD []).asString.toList).headD []).asString
       else if (pfxG.getD []).asString ≠ "" then (pfxG.getD []).asString else ""),
      (tr.getD []).asString⟩

/-- `Bot._parse_line` (irc.py lines 608-624). -/
def parse_line (line : String) : Option Parsed :=
  parseCore (matchIRC line.toList) line

/-! ## The DCC SEND regex (irc.py lines 30-33)

`DCC SEND (?P<filename>.+?) (?P<ip>\d+) (?P<port>\d+) (?P<filesize>\d+)`,
compiled with `re.IGNORECASE` and applied with `.search`.  Shortening a greedy
`\d+` leaves a digit in front of the required literal space, so only maximal
digit runs are tried; the final `\d+` ends the pattern, so its maximal run
always succeeds once non-empty. -/

/-- Case-insensitive character comparison (re.IGNORECASE). -/
def ciEq (a b : Char) : Bool := a.toLower = b.toLower

/-- Match a literal case-insensitively; return the remainder. -/
def ciLit : List Char → List Char → Option (List Char)
  | [], s => some s
  | _ :: _, [] => none
  | p :: ps, c :: cs => if ciEq p c then ciLit ps cs else none

/-- Match ` (\d+) (\d+) (\d+)` (what follows the lazy filename group). -/
def contDigits3 (t : List Char) : Option (List Char × List Char × List Char) :=
  match t with
  | ' ' :: t1 =>
    let d1 := t1.takeWhile Char.isDigit
    if d1 = [] then none
    else match t1.drop d1.length with
      | ' ' :: t3 =>
        let d2 := t3.takeWhile Char.isDigit
        if d2 = [] then none
        else match t3.drop d2.length with
          | ' ' :: t5 =>
            let d3 := t5.takeWhile Char.isDigit
            if d3 = [] then none else some (d1, d2, d3)
          | _ => none
      | _ => none
  | _ => none

/-- The lazy `(?P<filename>.+?)` group: shortest non-empty newline-free prefix
    whose remainder matches ` (\d+) (\d+) (\d+)`. -/
def fnameSplit : List Char → Option (List Char × List Char × List Char × List Char)
  | [] => none
  | c :: rest =>
    if c = '\n' then none
    else match contDigits3 rest with
      | some d => some ([c], d.1, d.2.1, d.2.2)
      | none =>
        match fnameSplit rest with
        | some (f, d) => some (c :: f, d)
        | none => none

/-- Attempt the whole DCC pattern anchored at the current position. -/
def dccMatchAt (s : List Char) : Option (List Char × List Char × List Char × List Char) :=
  match ciLit "DCC SEND ".toList s with
  | some rest => fnameSplit rest
  | none => none

/-- `DCC_SEND_REGEX.search`: try each start position left to right. -/
def dccSearch : List Char → Option (List Char × List Char × List Char × List Char)
  | [] => none
  | c :: rest =>
    match dccMatchAt (c :: rest) with
    | some g => some g
    | none => dccSearch rest

/-- `int` on a matched `\d+` group. -/
def digitsToNat (l : List Char) : Nat :=
  l.foldl (fun a c => a * 10 + (c.toNat - 48)) 0

/-! ## Context (types/context.py) -/

/-- The observable fields of a `Context` (the bot back-reference and logger are
    omitted; no claim mentions them). -/
structure Ctx where
  target : String
  author : String
  message : String
  commandType : String
  fullLine : String
  commandName : Option String
  arg : String
  args : List String
deriving Repr, DecidableEq

/-- `Context.__init__`: `arg = message.strip()`,
    `args = arg.split() if arg else []`. -/
def mkCtx (target author message commandType fullLine : String) : Ctx :=
  let a := pyStrip message
  { target := target, author := author, message := message,
    commandType := commandType, fullLine := fullLine,
    commandName := none, arg := a,
    args := if a = "" then [] else (pySplitWs a.toList).map List.asString }

/-! ## DCCFile (types/dcc.py lines 18-32) -/

/-- `os.path.splitext`'s extension component, taken of the basename: the
    suffix from the last dot, provided some earlier basename character is not
    a dot. -/
def pyExt (l : List Char) : List Char :=
  let b := pyBasenameL l
  if '.' ∈ b then
    let stem := ((b.reverse.dropWhile (· ≠ '.')).reverse).dropLast
    if stem.all (· = '.') then []
    else '.' :: (b.reverse.takeWhile (· ≠ '.')).reverse
  else []

/-- The fields `DCCFile.__init__` computes (transfer-progress fields at their
    initial values). -/
structure DCCFileM where
  sender : String
  filename : String
  ip_address : String
  port : Nat
  filesize : Nat
  save_dir : String
  safe_filename : String
  full_path : String
  extension : String
  is_good : Bool
  is_done : Bool
  progress : Nat
  percent : Nat
deriving Repr, DecidableEq

/-- `DCCFile.__init__`: `filename = filename.strip().strip('"')`,
    `safe_filename = os.path.basename(filename).replace(' ', '_')`,
    `full_path = os.path.join(save_dir, safe_filename)`. -/
def mkDCCFile (ctx : Ctx) (filename ip_address : String) (port filesize : Nat)
    (save_dir : String) : DCCFileM :=
  let fn := (pyStripQuotesL (pyStripL filename.toList)).asString
  let safe := pyReplaceSpace (pyBasenameL fn.toList).asString
  { sender := ctx.author, filename := fn, ip_address := ip_address,
    port := port, filesize := filesize, save_dir := save_dir,
    safe_filename := safe, full_path := pyJoin save_dir safe,
    extension := (pyExt fn.toList).asString,
    is_good := true, is_done := false, progress := 0, percent := 0 }

/-! ## The dispatcher (irc.py lines 626-723)

Handlers are identified by numeric tags; an `Inv` records one handler
invocation together with the argument object it received.  Dispatch results
carry the invocations made, the raw lines queued on the connection, an
instrumentation bit recording whether the DCC-scan branch ran, and an `ok`
flag that is `false` when the Python code would raise out of the dispatcher. -/

/-- One handler invocation. -/
inductive Inv where
  | raw (h : Nat) (c : Ctx)
  | cmd (name : String) (c : Ctx)
  | pCmd (p : String) (c : Ctx)
  | msg (h : Nat) (c : Ctx)
  | join (h : Nat) (c : Ctx)
  | leave (h : Nat) (c : Ctx)
  | nickEv (h : Nat) (c : Ctx)
  | dcc (h : Nat) (f : DCCFileM)
deriving Repr, DecidableEq

/-- Result of a dispatch. -/
structure DR where
  invs : List Inv
  out : List String
  scanned : Bool
  ok : Bool
deriving Repr, DecidableEq

/-- The registries and configuration a dispatch reads. -/
structure BotC where
  nick : String
  sigil : String
  cmds : List String
  pCmds : List String
  onRaw : List Nat
  onJoin : List Nat
  onLeave : List Nat
  onNick : List Nat
  onMsg : List Nat
  onDcc : List Nat
  saveDir : String
deriving Repr, DecidableEq

/-- `IRCConnection.send_raw` framing: strip, then append CRLF. -/
def sendLine (m : String) : String := pyStrip m ++ "\r\n"

/-- Step 1 of `Bot._dispatch_message` (irc.py lines 669-681): the
    bot-prefix command path.  `none` models the `IndexError` raised by
    `parts[0]` when the message is the bare prefix (possibly padded with
    whitespace). -/
def msgStep1 (b : BotC) (ctx : Ctx) : Option (Ctx × List Inv × Bool) :=
  if pyStartsWith ctx.message b.sigil then
    match pySplitMax1 (pyStrip (pyDropChars ctx.message b.sigil.toList.length)).toList with
    | [] => none
    | p0 :: prest =>
      if p0.asString ∈ b.cmds then
        let argS := (prest.headD []).asString
        let ctx' := { ctx with
          commandName := some p0.asString
          arg := argS
          args := if argS = "" then [] else (pySplitWs argS.toList).map List.asString }
        some (ctx', [Inv.cmd p0.asString ctx'], true)
      else some (ctx, [], false)
  else some (ctx, [], false)

/-- Step 2 of `Bot._dispatch_message` (irc.py lines 683-694): the
    prefix-command loop, in registration order.  `msg.split(p, 1)[1]` equals
    `msg[len(p):]` because the loop guard guarantees `msg` starts with `p`;
    `none` models the `ValueError` `str.split` raises on an empty separator. -/
def msgStep2 (msg : String) : List String → Ctx → List Inv → Bool →
    (Ctx × List Inv × Bool) × Bool
  | [], ctx, invs, found => ((ctx, invs, found), true)
  | p :: ps, ctx, invs, found =>
    if pyStartsWith msg p then
      if p = "" then ((ctx, invs, found), false)
      else
        let argsStr := pyDropChars msg p.toList.length
        let parts := (pySplitChar ' ' argsStr.toList).map List.asString
        let ctx' := { ctx with
          commandName := some p
          arg := argsStr
          args := if ctx.args ≠ [] then parts else [] }
        msgStep2 msg ps ctx' (invs ++ [Inv.pCmd p ctx']) true
    else msgStep2 msg ps ctx invs found

/-- `Bot._dispatch_message` (irc.py lines 664-723). -/
def dispatch_message (b : BotC) (ctx : Ctx) : DR :=
  match msgStep1 b ctx with
  | none => ⟨[], [], false, false⟩
  | some (ctx1, invs1, found1) =>
    match msgStep2 ctx.message b.pCmds ctx1 invs1 found1 with
    | ((_, invs2, _), false) => ⟨invs2, [], false, false⟩
    | ((ctx2, invs2, found2), true) =>
      if found2 = false ∧ pyStartsWith ctx2.target "#" then
        ⟨invs2 ++ b.onMsg.map (fun h => Inv.msg h ctx2), [], false, true⟩
      else
        match dccSearch ctx2.message.toList with
        | none => ⟨invs2, [], true, true⟩
        | some (fn, ipD, portD, sizeD) =>
          let f := mkDCCFile ctx2 fn.asString (ip_long_to_dotted (digitsToNat ipD))
                     (digitsToNat portD) (digitsToNat sizeD) b.saveDir
          ⟨invs2 ++ b.onDcc.map (fun h => Inv.dcc h f), [], true, true⟩

/-- `Bot._dispatch_line` (irc.py lines 635-662), with the PING short-circuit
    of `Bot._handle_protocol` (lines 626-632) inlined where the source calls
    it.  The final `NICK` branch reproduces the source's dead `elif`: it sits
    inside the `command in ["PRIVMSG", "JOIN", "PART", "QUIT"]` guard, which
    excludes `"NICK"`. -/
def dispatch_line (b : BotC) (line : String) : DR :=
  let rawCtx := mkCtx "" "" line "RAW" line
  let rawInvs := b.onRaw.map (fun h => Inv.raw h rawCtx)
  match parse_line line with
  | none => ⟨rawInvs, [], false, false⟩
  | some r =>
    if r.command = "PING" then
      ⟨rawInvs, [sendLine ("PONG :" ++ r.message)], false, true⟩
    else if r.command ∈ ["PRIVMSG", "JOIN", "PART", "QUIT"] then
      let ctx := mkCtx r.target r.author_nick r.message r.command line
      if r.command = "PRIVMSG" then
        let d := dispatch_message b ctx
        ⟨rawInvs ++ d.invs, d.out, d.scanned, d.ok⟩
      else if r.command = "JOIN" ∧ r.author_nick ≠ b.nick then
        ⟨rawInvs ++ b.onJoin.map (fun h => Inv.join h ctx), [], false, true⟩
      else if (r.command = "PART" ∨ r.command = "QUIT") ∧ r.author_nick ≠ b.nick then
        ⟨rawInvs ++ b.onLeave.map (fun h => Inv.leave h ctx), [], false, true⟩
      else if r.command = "NICK" ∧ r.author_nick ≠ b.nick then
        ⟨rawInvs ++ b.onNick.map (fun h => Inv.nickEv h ctx), [], false, true⟩
      else ⟨rawInvs, [], false, true⟩
    else ⟨rawInvs, [], false, true⟩

/-! ## IRCConnection (irc.py lines 47-141)

I/O outcomes are supplied as oracle arguments: `writeOk` tells whether
`writer.write`/`drain` succeeds, and `readResult` is what `reader.readline`
produces (`none` = exception, `some none` = EOF, `some (some data)` = a line).
Logging is not modelled. -/

/-- The state of an `IRCConnection`. -/
structure Conn where
  host : String
  port : Nat
  quit_msg : String
  hasReader : Bool
  hasWriter : Bool
  connected : Bool
deriving Repr, DecidableEq

/-- `IRCConnection.send_raw` (lines 86-103): returns the updated state and the
    frames put on the wire. -/
def send_raw (c : Conn) (message : String) (writeOk : Bool) : Conn × List String :=
  if ¬ c.connected ∨ ¬ c.hasWriter then (c, [])
  else
    let full := pyStrip message ++ "\r\n"
    if writeOk then (c, [full])
    else ({ c with connected := false }, [])

/-- `IRCConnection.read_line` (lines 105-130): returns the updated state and
    the stripped line, `none` on no-connection, EOF, cancellation or error. -/
def read_line (c : Conn) (readResult : Option (Option String)) : Conn × Option String :=
  if ¬ c.connected ∨ ¬ c.hasReader then (c, none)
  else
    match readResult with
    | some (some data) => (c, some (pyStrip data))
    | some none => ({ c with connected := false }, none)
    | none => ({ c with connected := false }, none)

/-! ## The task driver (irc.py lines 580-592)

`Bot._run_task` resets `current_repeat` to 0 and loops while `self.running`
and `current_repeat < max_repeat`, incrementing the counter before each call.
`running` is sampled at the i-th loop-head check through the oracle
`running i`; `raises k` tells whether the k-th handler call raises (on which
the driver logs and breaks).  Only the `max_repeat = N` case is needed by the
claims; `max_repeat is None` loops unboundedly and has no terminating model. -/

/-- The `current_repeat` values observed by successive handler calls, starting
    from counter value `cur` at loop-head check number `i`. -/
def taskObsFrom (running : Nat → Bool) (raises : Nat → Bool) (N : Nat) :
    Nat → Nat → List Nat
  | i, cur =>
    if h : running i = true ∧ cur < N then
      (cur + 1) :: (if raises (cur + 1) then [] else taskObsFrom running raises N (i + 1) (cur + 1))
    else []
termination_by _ cur => N - cur
decreasing_by omega

/-- `Bot._run_task` with `max_repeat = N`: the full observation list (the
    counter is reset to 0 on entry, line 582). -/
def taskObs (running : Nat → Bool) (raises : Nat → Bool) (N : Nat) : List Nat :=
  taskObsFrom running raises N 0 0

/-! ## The cog lifecycle (irc.py lines 364-495)

A handler object carries an identity and its Python `__name__` (the event
rebuild in `load_cog` deduplicates by `__name__`, everything else compares
objects).  A cog module's import is modelled as the list of decorator
registrations its top level performs, applied in order to the process-wide
registries.  Python dicts become association lists with unique keys:
assignment overwrites in place or appends, `pop` removes the key. -/

/-- A Python handler object: identity and `__name__`. -/
structure H where
  hid : Nat
  pyName : String
deriving Repr, DecidableEq

/-- The seven fixed keys of `_event_registry` (irc.py lines 14-22). -/
inductive EK where
  | message | join | leave | raw | ready | nick | dcc
deriving Repr, DecidableEq

/-- The fixed key order of `_event_registry`. -/
def EK.all : List EK := [.message, .join, .leave, .raw, .ready, .nick, .dcc]

/-- The event-handler table: one ordered handler list per kind. -/
structure Events where
  onMessage : List H
  onJoin : List H
  onLeave : List H
  onRaw : List H
  onReady : List H
  onNick : List H
  onDcc : List H
deriving Repr, DecidableEq

/-- Look up one kind. -/
def Events.get (e : Events) : EK → List H
  | .message => e.onMessage
  | .join => e.onJoin
  | .leave => e.onLeave
  | .raw => e.onRaw
  | .ready => e.onReady
  | .nick => e.onNick
  | .dcc => e.onDcc

/-- Build a table from a per-kind function. -/
def Events.build (f : EK → List H) : Events :=
  ⟨f .message, f .join, f .leave, f .raw, f .ready, f .nick, f .dcc⟩

/-- Python dict assignment `d[k] = v`. -/
def dictSet (d : List (String × H)) (k : String) (v : H) : List (String × H) :=
  if d.any (fun kv => kv.1 = k) then d.map (fun kv => if kv.1 = k then (k, v) else kv)
  else d ++ [(k, v)]

/-- Python `d.pop(k, None)` on a dict (keys unique, so at most one hit). -/
def dictPop (d : List (String × H)) (k : String) : List (String × H) :=
  d.filter (fun kv => kv.1 ≠ k)

/-- The keys of a dict, in insertion order. -/
def dictKeys (d : List (String × H)) : List String := d.map (fun kv => kv.1)

/-- Python `d[k]` where the key is known to exist. -/
def dictGet (d : List (String × H)) (k : String) : Option H :=
  (d.find? (fun kv => kv.1 = k)).map (fun kv => kv.2)

/-- The four registries (the process-wide quadruple, and equally the Bot's
    per-instance copies). -/
structure Reg where
  cmds : List (String × H)
  pcmds : List (String × H)
  tasks : List (String × H)
  events : Events
deriving Repr, DecidableEq

/-- One decorator registration performed at cog import time:
    `@Bot.command(name)`, `@Bot.prefix_command(name)`, `@Bot.task(...)`
    (keyed by the function's `__name__`), or one of the event decorators. -/
inductive RegAct where
  | cmd (name : String) (h : H)
  | pcmd (name : String) (h : H)
  | task (h : H)
  | event (k : EK) (h : H)
deriving Repr, DecidableEq

/-- Apply one registration to the process-wide registries. -/
def applyAct (g : Reg) : RegAct → Reg
  | .cmd n h => { g with cmds := dictSet g.cmds n h }
  | .pcmd n h => { g with pcmds := dictSet g.pcmds n h }
  | .task h => { g with tasks := dictSet g.tasks h.pyName h }
  | .event k h =>
    { g with events := Events.build (fun j => if j = k then g.events.get j ++ [h] else g.events.get j) }

/-- `importlib.import_module` on a cog: run its registrations in order. -/
def importCog (g : Reg) (acts : List RegAct) : Reg := acts.foldl applyAct g

/-- The bookkeeping record stored in `self.cogs[cog_name]`. -/
structure CogBk where
  cmdsAdded : List String
  pcmdsAdded : List String
  tasksAdded : List String
  eventsAdded : List (EK × List H)
deriving Repr, DecidableEq

/-- The combined state `load_cog`/`unload_cog` act on.  `aliased` records
    whether the Bot's event lists are the same Python list objects as the
    process-wide ones: true after `Bot.__init__` (`_event_registry.copy()` is
    shallow) and after `unload_cog` (lines 484-488 assign the Bot's lists into
    the global table), false after `load_cog` (lines 419-420 rebind every kind
    to a fresh list).  The flag is uniform across kinds because each of those
    places loops over all seven.  When it is true, `b.events = g.events`. -/
structure CogSt where
  g : Reg
  b : Reg
  cogs : List (String × CogBk)
  aliased : Bool
deriving Repr, DecidableEq

/-- Append the handlers of `hs` whose `__name__` is not yet present
    (irc.py lines 421-428). -/
def dedupByName (acc : List H) (hs : List H) : List H :=
  hs.foldl (fun cur h => if cur.any (fun h2 => h2.pyName = h.pyName) then cur else cur ++ [h]) acc

/-- Copying one named entry from a source dict (lines 396-398: look the name
    up in the global registry and assign it into the Bot's dict). -/
def getSetStep (G : List (String × H)) (d : List (String × H)) (n : String) :
    List (String × H) :=
  match dictGet G n with
  | some v => dictSet d n v
  | none => d

/-- `Bot.load_cog` (irc.py lines 364-437).  Import errors are environmental
    and not modelled, so the `(2, e)` arm does not appear; the `KeyError`
    feeding it cannot fire because every kind key exists in both tables. -/
def loadCog (s : CogSt) (cogName : String) (acts : List RegAct) : (Nat × Bool) × CogSt :=
  if s.cogs.any (fun c => c.1 = cogName) then ((1, false), s)
  else
    let before := s.g
    let g' := importCog s.g acts
    let newCmds := (dictKeys g'.cmds).filter (fun k => ¬ (dictKeys before.cmds).contains k)
    let newPcmds := (dictKeys g'.pcmds).filter (fun k => ¬ (dictKeys before.pcmds).contains k)
    let newTasks := (dictKeys g'.tasks).filter (fun k => ¬ (dictKeys before.tasks).contains k)
    let bcmds := newCmds.foldl (getSetStep g'.cmds) s.b.cmds
    let bpcmds := newPcmds.foldl (getSetStep g'.pcmds) s.b.pcmds
    let btasks := newTasks.foldl (getSetStep g'.tasks) s.b.tasks
    let added := fun k => (g'.events.get k).filter (fun h => ¬ (before.events.get k).contains h)
    let newEventsMap := EK.all.filterMap (fun k =>
      if added k = [] then none else some (k, added k))
    -- Lines 406-409 append `added` to `self.event_handlers[k]`; on an aliased
    -- bot that list is the global one, so the handlers land there a second
    -- time.  On a non-aliased bot the appends are discarded by the rebuild.
    let gevents := Events.build (fun k =>
      g'.events.get k ++ (if s.aliased then added k else []))
    let bevents := Events.build (fun k =>
      dedupByName (dedupByName [] (before.events.get k)) (added k))
    let bk : CogBk := ⟨newCmds, newPcmds, newTasks, newEventsMap⟩
    ((0, true),
     { g := { g' with events := gevents },
       b := { cmds := bcmds, pcmds := bpcmds, tasks := btasks, events := bevents },
       cogs := s.cogs ++ [(cogName, bk)],
       aliased := false })

/-- `list.remove` under the guard `if handler in list` (irc.py lines 471-474):
    remove the first occurrence when present. -/
def eraseH (l : List H) (h : H) : List H :=
  if l.contains h then l.erase h else l

/-- `Bot.unload_cog` (irc.py lines 439-495).  Nothing in the body can raise
    once the cog is found, so the `(2, e)` arm does not appear.  Lines
    484-488 overwrite every kind of `_event_registry` with the Bot's list, so
    the global table's own removals are superseded by that assignment. -/
def unloadCog (s : CogSt) (cogName : String) : (Nat × Bool) × CogSt :=
  match s.cogs.find? (fun c => c.1 = cogName) with
  | none => ((1, false), s)
  | some c =>
    let bk := c.2
    let cogs' := s.cogs.filter (fun c2 => c2.1 ≠ cogName)
    let bcmds := bk.cmdsAdded.foldl dictPop s.b.cmds
    let gcmds := bk.cmdsAdded.foldl dictPop s.g.cmds
    let bpcmds := bk.pcmdsAdded.foldl dictPop s.b.pcmds
    let gpcmds := bk.pcmdsAdded.foldl dictPop s.g.pcmds
    let btasks := bk.tasksAdded.foldl dictPop s.b.tasks
    let gtasks := bk.tasksAdded.foldl dictPop s.g.tasks
    -- Lines 469-474 run two guarded removes per handler; on an aliased bot
    -- both hit the same shared list.  Lines 484-488 then assign the Bot's
    -- lists into the global table, superseding the global removals and
    -- re-aliasing the two tables.
    let rm := fun (l : List H) (h : H) => if s.aliased then eraseH (eraseH l h) h else eraseH l h
    let bev := bk.eventsAdded.foldl
      (fun ev kh => Events.build (fun j =>
        if j = kh.1 then kh.2.foldl rm (ev.get j) else ev.get j)) s.b.events
    ((0, true),
     { g := { cmds := gcmds, pcmds := gpcmds, tasks := gtasks, events := bev },
       b := { cmds := bcmds, pcmds := bpcmds, tasks := btasks, events := bev },
       cogs := cogs',
       aliased := true })

/-! ## Spec-side formulas and observation helpers -/

/-- Spec formula: the prefix up to the first `!` (the whole prefix when no
    `!` occurs). -/
def authorNickSpec (p : List Char) : List Char := p.takeWhile (· ≠ '!')

/-- Spec formula: the first whitespace-separated token. -/
def firstTokenSpec (m : List Char) : List Char :=
  (m.dropWhile pyIsWs).takeWhile (fun c => ¬ pyIsWs c)

/-- The parser as the (amended) specification describes it, on a regex match
    result: `author_nick` is the prefix up to the first `!`; with a middle
    part, `target` is its first whitespace-separated token and the parser
    raises (`none`) exactly on a whitespace-only middle part; without one,
    `target` is the whitespace-stripped trailing exactly when the raw trailing
    begins with `#`; an unmatched line gives the all-empty record carrying the
    raw line. -/
def specParseCore
    (g : Option (Option (List Char) × List Char × Option (List Char) × Option (List Char)))
    (line : String) : Option Parsed :=
  match g with
  | none => some ⟨"", "", "", "", line⟩
  | some (pfxG, cmd, some mp, tr) =>
    if mp.all pyIsWs then none
    else
      some ⟨(pfxG.getD []).asString, cmd.asString, (firstTokenSpec mp).asString,
        (authorNickSpec (pfxG.getD [])).asString, (tr.getD []).asString⟩
  | some (pfxG, cmd, none, tr) =>
    some ⟨(pfxG.getD []).asString, cmd.asString,
      (if (tr.getD []).head? = some '#' then (pyStripL (tr.getD [])).asString else ""),
      (authorNickSpec (pfxG.getD [])).asString, (tr.getD []).asString⟩

/-- The spec-side parser applied to a raw line. -/
def specParse (line : String) : Option Parsed :=
  specParseCore (matchIRC line.toList) line

/-- Is this invocation a command or prefix-command handler call? -/
def isCP : Inv → Bool
  | .cmd _ _ => true
  | .pCmd _ _ => true
  | _ => false

/-- Is this invocation a `message` event handler call? -/
def isMsgInv : Inv → Bool
  | .msg _ _ => true
  | _ => false

/-- Is this invocation a `dcc` event handler call? -/
def isDccInv : Inv → Bool
  | .dcc _ _ => true
  | _ => false

/-- Is this invocation a `nick` event handler call? -/
def isNickInv : Inv → Bool
  | .nickEv _ _ => true
  | _ => false

/-- The command registrations a cog performs, in order. -/
def cmdPairs (acts : List RegAct) : List (String × H) :=
  acts.filterMap fun a => match a with | .cmd n h => some (n, h) | _ => none

/-- The prefix-command registrations a cog performs, in order. -/
def pcmdPairs (acts : List RegAct) : List (String × H) :=
  acts.filterMap fun a => match a with | .pcmd n h => some (n, h) | _ => none

/-- The task registrations a cog performs (keyed by `__name__`), in order. -/
def taskPairs (acts : List RegAct) : List (String × H) :=
  acts.filterMap fun a => match a with | .task h => some (h.pyName, h) | _ => none

/-- The event handlers a cog registers for one kind, in order. -/
def eventActs (k : EK) (acts : List RegAct) : List H :=
  acts.filterMap fun a => match a with
    | .event k2 h => if k2 = k then some h else none
    | _ => none

/-- An empty event table. -/
def emptyEvents : Events := ⟨[], [], [], [], [], [], []⟩

/-- Empty registries. -/
def emptyReg : Reg := ⟨[], [], [], emptyEvents⟩

/-- A freshly-initialised Bot's cog state: empty registries, the Bot's
    event lists aliased to the global ones. -/
def freshCogSt : CogSt := ⟨emptyReg, emptyReg, [], true⟩

/-- A small well-behaved cog: one command, one prefix command, one task and
    one message handler, all with fresh distinct names. -/
def greetActs : List RegAct :=
  [RegAct.cmd "greet" ⟨10, "greet_cmd"⟩,
   RegAct.pcmd "gr" ⟨11, "gr_pcmd"⟩,
   RegAct.task ⟨12, "greet_task"⟩,
   RegAct.event .message ⟨13, "on_greet_msg"⟩]

/-- A state whose registries already hold a `ping` command (in both the
    global and the Bot tables, as `load_cog` leaves them). -/
def pingCogSt : CogSt :=
  ⟨{ emptyReg with cmds := [("ping", ⟨1, "ping_v1"⟩)] },
   { emptyReg with cmds := [("ping", ⟨1, "ping_v1"⟩)] },
   [], true⟩

/-- A cog that re-registers the existing `ping` key with its own handler. -/
def dupActs : List RegAct := [RegAct.cmd "ping" ⟨2, "ping_v2"⟩]

/-! ## Theorems -/

/-- `x &&& 0xFF` is reduction modulo 256. -/
theorem and_255_eq_mod (n : Nat) : n &&& 255 = n % 256 := by
  have h := Nat.and_pow_two_sub_one_eq_mod n 8
  norm_num at h
  exact h

/-- C7: for all octets `a b c d ≤ 255`, converting the 32-bit big-endian
    integer `(a<<24)+(b<<16)+(c<<8)+d` with `ip_long_to_dotted` yields exactly
    the dotted-quad string `"a.b.c.d"`. -/
theorem C7_dotted_quad_roundtrip (a b c d : Nat)
    (ha : a ≤ 255) (hb : b ≤ 255) (hc : c ≤ 255) (hd : d ≤ 255) :
    ip_long_to_dotted (a * 2 ^ 24 + b * 2 ^ 16 + c * 2 ^ 8 + d) =
      toString a ++ "." ++ toString b ++ "." ++ toString c ++ "." ++ toString d := by
  have hA : octetA (a * 2 ^ 24 + b * 2 ^ 16 + c * 2 ^ 8 + d) = a := by
    unfold octetA
    rw [Nat.shiftRight_eq_div_pow, and_255_eq_mod]
    norm_num
    omega
  have hB : octetB (a * 2 ^ 24 + b * 2 ^ 16 + c * 2 ^ 8 + d) = b := by
    unfold octetB
    rw [Nat.shiftRight_eq_div_pow, and_255_eq_mod]
    norm_num
    omega
  have hC : octetC (a * 2 ^ 24 + b * 2 ^ 16 + c * 2 ^ 8 + d) = c := by
    unfold octetC
    rw [Nat.shiftRight_eq_div_pow, and_255_eq_mod]
    norm_num
    omega
  have hD : octetD (a * 2 ^ 24 + b * 2 ^ 16 + c * 2 ^ 8 + d) = d := by
    unfold octetD
    rw [and_255_eq_mod]
    omega
  unfold ip_long_to_dotted
  rw [hA, hB, hC, hD]

/-- Witness for C7 at the concrete octets 127.0.0.1. -/
theorem C7_dotted_quad_roundtrip_witness :
    (127 : Nat) ≤ 255 ∧
      ip_long_to_dotted (127 * 2 ^ 24 + 0 * 2 ^ 16 + 0 * 2 ^ 8 + 1) = "127.0.0.1" :=
  ⟨by decide, C7_dotted_quad_roundtrip 127 0 0 1 (by decide) (by decide) (by decide) (by decide)⟩

/-- C10: `ip_long_to_dotted` is total on `Nat`, its output depends only on
    the input modulo `2^32` (the `0xFF` masks silently discard high bits),
    and every printed octet lies in `0..255`. -/
theorem C10_ip_conversion_total (n : Nat) :
    ip_long_to_dotted n = ip_long_to_dotted (n % 2 ^ 32) ∧
      octetA n ≤ 255 ∧ octetB n ≤ 255 ∧ octetC n ≤ 255 ∧ octetD n ≤ 255 := by
  have eA : octetA n = octetA (n % 2 ^ 32) := by
    unfold octetA
    rw [Nat.shiftRight_eq_div_pow, Nat.shiftRight_eq_div_pow, and_255_eq_mod, and_255_eq_mod]
    norm_num
    omega
  have eB : octetB n = octetB (n % 2 ^ 32) := by
    unfold octetB
    rw [Nat.shiftRight_eq_div_pow, Nat.shiftRight_eq_div_pow, and_255_eq_mod, and_255_eq_mod]
    norm_num
    omega
  have eC : octetC n = octetC (n % 2 ^ 32) := by
    unfold octetC
    rw [Nat.shiftRight_eq_div_pow, Nat.shiftRight_eq_div_pow, and_255_eq_mod, and_255_eq_mod]
    norm_num
    omega
  have eD : octetD n = octetD (n % 2 ^ 32) := by
    unfold octetD
    rw [and_255_eq_mod, and_255_eq_mod]
    omega
  refine ⟨?_, ?_, ?_, ?_, ?_⟩
  · unfold ip_long_to_dotted
    rw [eA, eB, eC, eD]
  · unfold octetA; rw [and_255_eq_mod]; omega
  · unfold octetB; rw [and_255_eq_mod]; omega
  · unfold octetC; rw [and_255_eq_mod]; omega
  · unfold octetD; rw [and_255_eq_mod]; omega

/-- C9: on a connection whose `connected` flag is false, `send_raw` returns
    without writing and `read_line` returns `none`, and the connection state
    is left unchanged, whatever the I/O oracles say. -/
theorem C9_disconnected_noop (c : Conn) (msg : String) (writeOk : Bool)
    (readResult : Option (Option String)) (h : c.connected = false) :
    send_raw c msg writeOk = (c, []) ∧ read_line c readResult = (c, none) := by
  constructor
  · unfold send_raw
    rw [h]
    simp
  · unfold read_line
    rw [h]
    simp

/-- Witness for C9 at a concrete disconnected connection. -/
theorem C9_disconnected_noop_witness :
    (Conn.mk "irc.example" 6667 "QUIT" true true false).connected = false ∧
      send_raw (Conn.mk "irc.example" 6667 "QUIT" true true false) "PRIVMSG #c :hi" true =
        (Conn.mk "irc.example" 6667 "QUIT" true true false, []) ∧
      read_line (Conn.mk "irc.example" 6667 "QUIT" true true false) (some (some "PING :x")) =
        (Conn.mk "irc.example" 6667 "QUIT" true true false, none) := by
  refine ⟨rfl, ?_⟩
  exact C9_disconnected_noop _ "PRIVMSG #c :hi" true (some (some "PING :x")) rfl

/-- The task loop from counter `cur` produces `cur+1, ..., N` when `running`
    stays true and no call raises. -/
theorem taskObsFrom_all_run (running raises : Nat → Bool)
    (hr : ∀ i, running i = true) (hx : ∀ k, raises k = false) (N : Nat) :
    ∀ d i cur, N - cur = d →
      taskObsFrom running raises N i cur = List.range' (cur + 1) (N - cur) := by
  intro d
  induction d with
  | zero =>
    intro i cur h
    rw [taskObsFrom]
    rw [dif_neg (by omega)]
    rw [h]
    rfl
  | succ d ih =>
    intro i cur h
    have hlt : cur < N := by omega
    rw [taskObsFrom]
    rw [dif_pos ⟨hr i, hlt⟩]
    rw [hx (cur + 1)]
    simp only [Bool.false_eq_true, if_false]
    rw [ih (i + 1) (cur + 1) (by omega)]
    rw [show N - cur = (N - cur - 1) + 1 by omega, List.range'_succ (cur + 1) (N - cur - 1) 1]
    rw [show N - (cur + 1) = N - cur - 1 by omega]

/-- C8: a task registered with `max_repeat = N` whose bot keeps running and
    whose handler never raises is invoked exactly `N` times, the k-th call
    observing `current_repeat = k` (the counter is incremented before each
    call). -/
theorem C8_task_repeat_exact (running raises : Nat → Bool) (N : Nat)
    (hr : ∀ i, running i = true) (hx : ∀ k, raises k = false) :
    taskObs running raises N = List.range' 1 N ∧
      (taskObs running raises N).length = N := by
  have h := taskObsFrom_all_run running raises hr hx N (N - 0) 0 0 rfl
  unfold taskObs
  rw [h]
  constructor
  · rw [Nat.sub_zero]
  · rw [List.length_range', Nat.sub_zero]

/-- Witness for C8 at `N = 3` with constantly-true `running`. -/
theorem C8_task_repeat_exact_witness :
    (∀ i, (fun _ : Nat => true) i = true) ∧
      taskObs (fun _ => true) (fun _ => false) 3 = [1, 2, 3] :=
  ⟨fun _ => rfl,
   (C8_task_repeat_exact (fun _ => true) (fun _ => false) 3 (fun _ => rfl) (fun _ => rfl)).1⟩

/-- A list whose first and last characters are not whitespace is unchanged by
    `str.strip()`. -/
theorem pyStripL_eq_self (l : List Char)
    (h1 : ∀ c, l.head? = some c → pyIsWs c = false)
    (h2 : ∀ c, l.getLast? = some c → pyIsWs c = false) :
    pyStripL l = l := by
  unfold pyStripL
  have d1 : l.dropWhile pyIsWs = l := by
    cases l with
    | nil => rfl
    | cons a as =>
      exact List.dropWhile_cons_of_neg (by simp [h1 a rfl])
  rw [d1]
  have d2 : l.reverse.dropWhile pyIsWs = l.reverse := by
    cases hr : l.reverse with
    | nil => rfl
    | cons a as =>
      have ha : l.getLast? = some a := by
        rw [← List.head?_reverse, hr]
        rfl
      exact List.dropWhile_cons_of_neg (by simp [h2 a ha])
  rw [d2, List.reverse_reverse]

/-- The IRC regex on a `PING :<token>` line (token free of newlines):
    no prefix, command `PING`, no middle, trailing = the token. -/
theorem matchIRC_ping (t : List Char) (h : ∀ c ∈ t, c ≠ '\n') :
    matchIRC ('P' :: 'I' :: 'N' :: 'G' :: ' ' :: ':' :: t) =
      some (none, ['P', 'I', 'N', 'G'], none, some t) := by
  have h1 : t.takeWhile (· ≠ '\n') = t :=
    List.takeWhile_eq_self_iff.mpr (by intro a ha; simpa using h a ha)
  have h2 : t.dropWhile (· ≠ '\n') = [] :=
    List.dropWhile_eq_nil_iff.mpr (by intro a ha; simpa using h a ha)
  simp [matchIRC, matchCmd, afterCommand, contTrail, orElseO, pyIsWs,
    List.takeWhile, h1, h2]
  exact ⟨Or.inl h, h⟩

/-- `Bot._parse_line` on a `PING :<token>` line. -/
theorem parse_line_ping (t : String) (h : ∀ c ∈ t.toList, c ≠ '\n') :
    parse_line ("PING :" ++ t) =
      some ⟨"", "PING",
        (if t ≠ "" ∧ t.toList.head? = some '#' then pyStrip t else ""), "", t⟩ := by
  have htl : ("PING :" ++ t).toList = 'P' :: 'I' :: 'N' :: 'G' :: ' ' :: ':' :: t.toList := by
    simp
  unfold parse_line
  rw [htl, matchIRC_ping t.toList h]
  rfl

/-- C1: on the inbound line `:alice!u@h NICK :alice2` (author ≠ bot nick),
    the dispatcher invokes only the raw handlers — no registered nick handler
    ever fires, for any bot configuration, because line 645's command list
    omits `NICK` and so the `elif command == "NICK"` branch is dead. -/
theorem C1_nick_handlers_never_fire (b : BotC) :
    dispatch_line b ":alice!u@h NICK :alice2" =
      ⟨b.onRaw.map (fun h => Inv.raw h
          (mkCtx "" "" ":alice!u@h NICK :alice2" "RAW" ":alice!u@h NICK :alice2")),
        [], false, true⟩ ∧
      ∀ i ∈ (dispatch_line b ":alice!u@h NICK :alice2").invs, isNickInv i = false := by
  constructor
  · rfl
  · intro i hi
    have : (dispatch_line b ":alice!u@h NICK :alice2").invs =
        b.onRaw.map (fun h => Inv.raw h
          (mkCtx "" "" ":alice!u@h NICK :alice2" "RAW" ":alice!u@h NICK :alice2")) := rfl
    rw [this] at hi
    obtain ⟨h, _, rfl⟩ := List.mem_map.mp hi
    rfl

/-- C2 counterexample: with one registered raw handler, the line
    `PING :abc123` still produces `PONG :abc123` but the raw handler DOES
    fire, refuting "no handler (of any kind, including raw handlers) fires". -/
theorem C2_counterexample :
    (dispatch_line ⟨"bot", "!", [], [], [3], [], [], [], [], [], "downloads"⟩
        "PING :abc123").invs =
      [Inv.raw 3 (mkCtx "" "" "PING :abc123" "RAW" "PING :abc123")] ∧
    (dispatch_line ⟨"bot", "!", [], [], [3], [], [], [], [], [], "downloads"⟩
        "PING :abc123").invs ≠ [] ∧
    (dispatch_line ⟨"bot", "!", [], [], [3], [], [], [], [], [], "downloads"⟩
        "PING :abc123").out = ["PONG :abc123\r\n"] := by
  have e : (dispatch_line ⟨"bot", "!", [], [], [3], [], [], [], [], [], "downloads"⟩
      "PING :abc123").invs =
      [Inv.raw 3 (mkCtx "" "" "PING :abc123" "RAW" "PING :abc123")] := rfl
  refine ⟨e, ?_, rfl⟩
  rw [e]
  simp

/-- C2 amended: for every inbound line `PING :<token>` (tokens are free of
    newlines and, being read through `read_line`'s strip, do not end in
    whitespace), the bot's only output for that line is `PONG :<token>` with
    the identical token, and no handler other than the raw handlers fires
    (the raw handlers run for every line before protocol handling). -/
theorem C2_ping_pong_amended (b : BotC) (t : String)
    (h1 : ∀ c ∈ t.toList, c ≠ '\n')
    (h2 : ∀ c, t.toList.getLast? = some c → pyIsWs c = false) :
    dispatch_line b ("PING :" ++ t) =
      ⟨b.onRaw.map (fun h => Inv.raw h
          (mkCtx "" "" ("PING :" ++ t) "RAW" ("PING :" ++ t))),
        ["PONG :" ++ t ++ "\r\n"], false, true⟩ := by
  have hstrip : pyStrip ("PONG :" ++ t) = "PONG :" ++ t := by
    unfold pyStrip
    have hl : ("PONG :" ++ t).toList = "PONG :".toList ++ t.toList := by simp
    rw [hl]
    rw [pyStripL_eq_self]
    · rw [← hl, String.asString_toList]
    · intro c hc
      simp at hc
      rw [← hc]
      decide
    · intro c hc
      by_cases hT : t.toList = []
      · rw [hT] at hc
        simp at hc
        rw [← hc]
        decide
      · rw [List.getLast?_append_of_ne_nil _ hT] at hc
        exact h2 c hc
  have hd : dispatch_line b ("PING :" ++ t) =
      ⟨b.onRaw.map (fun h => Inv.raw h
          (mkCtx "" "" ("PING :" ++ t) "RAW" ("PING :" ++ t))),
        [sendLine ("PONG :" ++ t)], false, true⟩ := by
    unfold dispatch_line
    rw [parse_line_ping t h1]
    rfl
  rw [hd]
  unfold sendLine
  rw [hstrip]

/-- Witness for C2's amended theorem at token `abc123`. -/
theorem C2_ping_pong_amended_witness :
    (∀ c ∈ "abc123".toList, c ≠ '\n') ∧
      dispatch_line ⟨"bot", "!", [], [], [3], [], [], [], [], [], "downloads"⟩
          ("PING :" ++ "abc123") =
        ⟨[Inv.raw 3 (mkCtx "" "" ("PING :" ++ "abc123") "RAW" ("PING :" ++ "abc123"))],
          ["PONG :" ++ "abc123" ++ "\r\n"], false, true⟩ :=
  ⟨by decide,
   C2_ping_pong_amended ⟨"bot", "!", [], [], [3], [], [], [], [], [], "downloads"⟩
     "abc123" (by decide) (by decide)⟩

/-- C4: a `DCCFile` built from a DCC SEND payload has `safe_filename` equal
    to the basename of the normalised (whitespace-stripped, unquoted) filename
    with every space replaced by `_` — hence free of path separators and
    spaces — and `full_path` equal to `save_dir` path-joined with
    `safe_filename`; on the payload
    `DCC SEND "my file.bin" 2130706433 5000 1048576` the dispatcher builds
    exactly the DCCFile with ip `127.0.0.1`, port `5000`, size `1048576`,
    safe filename `my_file.bin`. -/
theorem C4_dcc_file_sanitised :
    (∀ (ctx : Ctx) (fname ip : String) (port size : Nat) (dir : String),
      (mkDCCFile ctx fname ip port size dir).safe_filename =
        pyReplaceSpace
          ((pyBasenameL (mkDCCFile ctx fname ip port size dir).filename.toList).asString) ∧
      (∀ c ∈ (mkDCCFile ctx fname ip port size dir).safe_filename.toList,
        c ≠ '/' ∧ c ≠ ' ') ∧
      (mkDCCFile ctx fname ip port size dir).full_path =
        pyJoin dir (mkDCCFile ctx fname ip port size dir).safe_filename) ∧
    dispatch_line ⟨"bot", "!", [], [], [], [], [], [], [], [1], "downloads"⟩
        ":carol!u@h PRIVMSG bot :\x01DCC SEND \"my file.bin\" 2130706433 5000 1048576\x01" =
      ⟨[Inv.dcc 1 ⟨"carol", "my file.bin", "127.0.0.1", 5000, 1048576, "downloads",
          "my_file.bin", "downloads/my_file.bin", ".bin", true, false, 0, 0⟩],
        [], true, true⟩ := by
  constructor
  · intro ctx fname ip port size dir
    refine ⟨rfl, ?_, rfl⟩
    intro c hc
    unfold mkDCCFile pyReplaceSpace at hc
    simp only [List.toList_asString] at hc
    obtain ⟨d, hd, rfl⟩ := List.mem_map.mp hc
    unfold pyBasenameL at hd
    rw [List.mem_reverse] at hd
    have hds := List.mem_takeWhile_imp hd
    by_cases hsp : d = ' '
    · rw [if_pos hsp]
      decide
    · rw [if_neg hsp]
      refine ⟨?_, hsp⟩
      simpa using hds
  · with_unfolding_all rfl

/-- `str.split()` is empty exactly on whitespace-only strings. -/
theorem pySplitWs_nil_iff (l : List Char) : pySplitWs l = [] ↔ l.all pyIsWs = true := by
  induction l using pySplitWs.induct with
  | case1 => simp [pySplitWs]
  | case2 c rest hw ih =>
    rw [pySplitWs]
    simp [hw, ih]
  | case3 c rest hw ih =>
    rw [pySplitWs]
    simp [hw]

/-- The head of `str.split()` is the first whitespace-separated token. -/
theorem pySplitWs_head (l : List Char) :
    ∀ t0 rest, pySplitWs l = t0 :: rest → t0 = firstTokenSpec l := by
  induction l using pySplitWs.induct with
  | case1 => intro t0 rest h; simp [pySplitWs] at h
  | case2 c rest hw ih =>
    intro t0 r h
    rw [pySplitWs, if_pos hw] at h
    unfold firstTokenSpec
    rw [List.dropWhile_cons_of_pos hw]
    exact ih t0 r h
  | case3 c rest hw ih =>
    intro t0 r h
    rw [pySplitWs, if_neg hw] at h
    unfold firstTokenSpec
    rw [List.dropWhile_cons_of_neg hw, List.takeWhile_cons_of_pos (by simpa using hw)]
    injection h with h1 _
    exact h1.symm

/-- `str.split(sep)` never returns an empty list. -/
theorem pySplitChar_ne_nil (sep : Char) (l : List Char) : pySplitChar sep l ≠ [] := by
  induction l with
  | nil => simp [pySplitChar]
  | cons c rest ih =>
    unfold pySplitChar
    by_cases h : c = sep
    · simp [h]
    · rw [if_neg h]
      cases hs : pySplitChar sep rest with
      | nil => simp
      | cons t ts => simp

/-- The first field of `str.split(sep)` is the text up to the first `sep`. -/
theorem pySplitChar_headD (sep : Char) (l : List Char) :
    (pySplitChar sep l).headD [] = l.takeWhile (· ≠ sep) := by
  induction l with
  | nil => rfl
  | cons c rest ih =>
    unfold pySplitChar
    by_cases h : c = sep
    · subst h
      simp [List.takeWhile_cons_of_neg]
    · rw [if_neg h]
      cases hs : pySplitChar sep rest with
      | nil => exact absurd hs (pySplitChar_ne_nil sep rest)
      | cons t ts =>
        rw [hs] at ih
        simp only [List.headD_cons] at ih ⊢
        rw [List.takeWhile_cons_of_pos (by simpa using h), ih]

/-- C5 counterexample: on the line `CMD :#x ` (trailing `#x `, middle absent)
    the parser's target is the *stripped* trailing `#x`, not the trailing
    itself — refuting "target falls back to the trailing". -/
theorem C5_counterexample :
    matchIRC "CMD :#x ".toList =
      some (none, "CMD".toList, none, some "#x ".toList) ∧
    parse_line "CMD :#x " = some ⟨"", "CMD", "#x", "", "#x "⟩ ∧
    ("#x" : String) ≠ "#x " := by
  refine ⟨rfl, rfl, by decide⟩

/-- The code's author computation (split on `!`, three branches) equals the
    spec's "prefix up to the first `!`". -/
theorem author_code_eq_spec (p : List Char) :
    (if p.asString ≠ "" ∧ '!' ∈ p.asString.toList
     then ((pySplitChar '!' p.asString.toList).headD []).asString
     else if p.asString ≠ "" then p.asString else "") =
    (authorNickSpec p).asString := by
  rw [List.toList_asString]
  by_cases h1 : p.asString ≠ "" ∧ '!' ∈ p
  · rw [if_pos h1, pySplitChar_headD]
    rfl
  · rw [if_neg h1]
    by_cases h2 : p.asString = ""
    · rw [if_neg (fun hc => hc h2)]
      have hpn : p = [] := by
        have := congrArg String.toList h2
        rw [List.toList_asString] at this
        exact this
      rw [hpn]
      rfl
    · rw [if_pos h2]
      have hni : '!' ∉ p := fun hin => h1 ⟨h2, hin⟩
      unfold authorNickSpec
      rw [List.takeWhile_eq_self_iff.mpr (by
        intro a ha
        simp only [ne_eq, decide_eq_true_eq]
        intro he
        subst he
        exact hni ha)]

/-- The code's channel-fallback target equals the spec's "stripped trailing
    when the raw trailing begins with `#`". -/
theorem target_system_code_eq_spec (trl : List Char) :
    (if trl.asString ≠ "" ∧ trl.asString.toList.head? = some '#'
     then pyStrip trl.asString else "") =
    (if trl.head? = some '#' then (pyStripL trl).asString else "") := by
  rw [List.toList_asString]
  by_cases hh : trl.head? = some '#'
  · rw [if_pos hh, if_pos]
    · unfold pyStrip
      rw [List.toList_asString]
    · refine ⟨?_, hh⟩
      intro he
      have := congrArg String.toList he
      rw [List.toList_asString] at this
      rw [this] at hh
      cases hh
  · rw [if_neg hh, if_neg]
    intro hc
    exact hh hc.2

/-- C5 amended: the line parser agrees everywhere with the spec-side parser:
    `author_nick` = prefix up to the first `!` (whole prefix without `!`);
    with a middle part, `target` is its first whitespace-separated token and
    the parser raises (modelled `none`) exactly on a whitespace-only middle
    part; without one, `target` falls back to the whitespace-STRIPPED trailing
    exactly when the raw trailing begins with `#`; any line the regex cannot
    parse yields the all-empty record with the raw line as trailing. -/
theorem C5_parser_amended (line : String) : parse_line line = specParse line := by
  unfold parse_line specParse
  cases hm : matchIRC line.toList with
  | none => rfl
  | some g =>
    obtain ⟨pfxG, cmd, mid, tr⟩ := g
    cases mid with
    | some mp =>
      simp only [parseCore, specParseCore]
      by_cases hws : mp.all pyIsWs
      · rw [(pySplitWs_nil_iff mp).mpr hws, if_pos hws]
      · rw [if_neg hws]
        cases hsp : pySplitWs mp with
        | nil => exact absurd ((pySplitWs_nil_iff mp).mp hsp) hws
        | cons t0 rest =>
          rw [pySplitWs_head mp t0 rest hsp, author_code_eq_spec]
    | none =>
      simp only [parseCore, specParseCore]
      rw [author_code_eq_spec, target_system_code_eq_spec]

/-- The prefix-command loop: with no empty prefix registered it cannot raise,
    it only appends prefix-command invocations, and its found-flag is set
    exactly when the incoming flag was set or some prefix-command fired. -/
theorem msgStep2_spec (msg : String) :
    ∀ (ps : List String), "" ∉ ps → ∀ ctx invs found,
      (msgStep2 msg ps ctx invs found).2 = true ∧
      ∃ newInvs, (msgStep2 msg ps ctx invs found).1.2.1 = invs ++ newInvs ∧
        (∀ i ∈ newInvs, ∃ p c, i = Inv.pCmd p c) ∧
        ((msgStep2 msg ps ctx invs found).1.2.2 = true ↔ found = true ∨ newInvs ≠ []) := by
  intro ps
  induction ps with
  | nil =>
    intro _ ctx invs found
    refine ⟨rfl, [], by simp [msgStep2], by simp, by simp [msgStep2]⟩
  | cons p ps ih =>
    intro hps ctx invs found
    have hp : p ≠ "" := fun h => hps (h ▸ List.mem_cons_self p ps)
    have hps' : "" ∉ ps := fun h => hps (List.mem_cons_of_mem p h)
    unfold msgStep2
    by_cases hsw : pyStartsWith msg p = true
    · rw [if_pos hsw, if_neg hp]
      have hmain : ∀ ctx' : Ctx,
          (msgStep2 msg ps ctx' (invs ++ [Inv.pCmd p ctx']) true).2 = true ∧
          ∃ newInvs,
            (msgStep2 msg ps ctx' (invs ++ [Inv.pCmd p ctx']) true).1.2.1 =
              invs ++ Inv.pCmd p ctx' :: newInvs ∧
            (∀ i ∈ Inv.pCmd p ctx' :: newInvs, ∃ q c, i = Inv.pCmd q c) ∧
            ((msgStep2 msg ps ctx' (invs ++ [Inv.pCmd p ctx']) true).1.2.2 = true ↔
              found = true ∨ Inv.pCmd p ctx' :: newInvs ≠ []) := by
        intro ctx'
        obtain ⟨hok, newInvs, heq, hcp, hiff⟩ := ih hps' ctx' (invs ++ [Inv.pCmd p ctx']) true
        refine ⟨hok, newInvs, ?_, ?_, ?_⟩
        · rw [heq]
          simp
        · intro i hi
          rcases List.mem_cons.mp hi with h | h
          · exact ⟨_, _, h⟩
          · exact hcp i h
        · rw [hiff]
          simp
      obtain ⟨hok, newInvs, heq, hcp, hiff⟩ := hmain _
      exact ⟨hok, Inv.pCmd p _ :: newInvs, heq, hcp, hiff⟩
    · rw [if_neg (by simpa using hsw)]
      exact ih hps' ctx invs found

/-- The command step under the no-crash proviso: it returns, and produces
    either nothing or exactly one command invocation with the flag set. -/
theorem msgStep1_spec (b : BotC) (ctx : Ctx)
    (h1 : pyStartsWith ctx.message b.sigil = true →
      pySplitMax1 (pyStrip (pyDropChars ctx.message b.sigil.toList.length)).toList ≠ []) :
    ∃ ctx1 invs1 found1, msgStep1 b ctx = some (ctx1, invs1, found1) ∧
      ((invs1 = [] ∧ found1 = false) ∨
        (∃ n c, invs1 = [Inv.cmd n c] ∧ found1 = true)) := by
  unfold msgStep1
  split
  next hsw =>
    split
    next heq => exact absurd heq (h1 hsw)
    next p0 prest heq =>
      split
      next hin => exact ⟨_, _, _, rfl, Or.inr ⟨_, _, rfl, rfl⟩⟩
      next hin => exact ⟨_, _, _, rfl, Or.inl ⟨rfl, rfl⟩⟩
  next hsw => exact ⟨_, _, _, rfl, Or.inl ⟨rfl, rfl⟩⟩

/-- `msgStep1` never alters the context's target or message. -/
theorem msgStep1_preserves (b : BotC) (ctx ctx1 : Ctx) (invs1 : List Inv) (found1 : Bool)
    (h : msgStep1 b ctx = some (ctx1, invs1, found1)) :
    ctx1.target = ctx.target ∧ ctx1.message = ctx.message := by
  unfold msgStep1 at h
  split at h
  next hsw =>
    split at h
    next heq => cases h
    next p0 prest heq =>
      split at h
      next hin =>
        cases h
        exact ⟨rfl, rfl⟩
      next hin =>
        cases h
        exact ⟨rfl, rfl⟩
  next hsw =>
    cases h
    exact ⟨rfl, rfl⟩

/-- `msgStep2` never alters the context's target or message. -/
theorem msgStep2_preserves (msg : String) :
    ∀ (ps : List String) (ctx1 ctx2 : Ctx) invs1 found1 invs2 found2 ok2,
      msgStep2 msg ps ctx1 invs1 found1 = ((ctx2, invs2, found2), ok2) →
      ctx2.target = ctx1.target ∧ ctx2.message = ctx1.message := by
  intro ps
  induction ps with
  | nil =>
    intro c1 c2 i1 f1 i2 f2 o2 hm
    unfold msgStep2 at hm
    cases hm
    exact ⟨rfl, rfl⟩
  | cons p ps ihp =>
    intro c1 c2 i1 f1 i2 f2 o2 hm
    unfold msgStep2 at hm
    split at hm
    next hsw =>
      split at hm
      next hpe =>
        cases hm
        exact ⟨rfl, rfl⟩
      next hpe =>
        have h' := ihp _ _ _ _ _ _ _ hm
        exact h'
    next hsw =>
      exact ihp _ _ _ _ _ _ _ hm

/-- C6 counterexample: prefix `!`, message `"!"` (the bare prefix), channel
    target `#c`, a registered command and a message handler — the claim says
    the message handlers fire, but the dispatcher raises `IndexError` at
    `parts[0]` and nothing fires at all. -/
theorem C6_counterexample :
    dispatch_message ⟨"bot", "!", ["x"], [], [], [], [], [], [5], [9], "downloads"⟩
        (mkCtx "#c" "alice" "!" "PRIVMSG" "full") = ⟨[], [], false, false⟩ := by
  with_unfolding_all rfl

/-- C6 amended: for every PRIVMSG on which the dispatcher does not raise
    (the message is not the bare command prefix padded with whitespace, and
    no registered prefix-command is the empty string), the DCC SEND scan runs
    exactly when the message-handler fallback does not: when no command and
    no prefix-command fired and the target begins with `#`, the message
    handlers fire and the DCC payload is never examined; in every other case
    the message is scanned and, on a match, each dcc handler is launched. -/
theorem C6_dcc_scan_amended (b : BotC) (ctx : Ctx)
    (h1 : pyStartsWith ctx.message b.sigil = true →
      pySplitMax1 (pyStrip (pyDropChars ctx.message b.sigil.toList.length)).toList ≠ [])
    (h2 : "" ∉ b.pCmds) :
    (dispatch_message b ctx).ok = true ∧
    ((dispatch_message b ctx).scanned = true ↔
      ((dispatch_message b ctx).invs.any isCP = true ∨
        pyStartsWith ctx.target "#" = false)) ∧
    ((dispatch_message b ctx).scanned = false →
      (∀ h ∈ b.onMsg, ∃ c, Inv.msg h c ∈ (dispatch_message b ctx).invs) ∧
      (∀ i ∈ (dispatch_message b ctx).invs, isDccInv i = false)) ∧
    ((dispatch_message b ctx).scanned = true →
      (∀ i ∈ (dispatch_message b ctx).invs, isMsgInv i = false) ∧
      (dccSearch ctx.message.toList = none →
        ∀ i ∈ (dispatch_message b ctx).invs, isDccInv i = false) ∧
      (∀ g, dccSearch ctx.message.toList = some g →
        ∀ h ∈ b.onDcc, ∃ f, Inv.dcc h f ∈ (dispatch_message b ctx).invs)) := by
  obtain ⟨ctx1, invs1, found1, he1, hshape⟩ := msgStep1_spec b ctx h1
  obtain ⟨hok2, newInvs, heq2, hcp2, hiff2⟩ := msgStep2_spec ctx.message b.pCmds h2 ctx1 invs1 found1
  rcases hm2 : msgStep2 ctx.message b.pCmds ctx1 invs1 found1 with ⟨⟨ctx2, invs2, found2⟩, ok2⟩
  rw [hm2] at hok2 heq2 hiff2
  simp only at hok2 heq2 hiff2
  subst hok2
  have hinvs1cp : ∀ i ∈ invs1, isCP i = true := by
    rcases hshape with ⟨h, _⟩ | ⟨n, c, h, _⟩ <;> rw [h]
    · simp
    · intro i hi
      rw [List.mem_singleton.mp hi]
      rfl
  have hinvs1dcc : ∀ i ∈ invs1, isDccInv i = false := by
    rcases hshape with ⟨h, _⟩ | ⟨n, c, h, _⟩ <;> rw [h]
    · simp
    · intro i hi
      rw [List.mem_singleton.mp hi]
      rfl
  have hinvs1msg : ∀ i ∈ invs1, isMsgInv i = false := by
    rcases hshape with ⟨h, _⟩ | ⟨n, c, h, _⟩ <;> rw [h]
    · simp
    · intro i hi
      rw [List.mem_singleton.mp hi]
      rfl
  have hany : invs2.any isCP = true ↔ found2 = true := by
    rw [heq2, List.any_append]
    constructor
    · intro hor
      rcases Bool.or_eq_true_iff.mp hor with h | h
      · obtain ⟨i, hi, hcpi⟩ := List.any_eq_true.mp h
        rcases hshape with ⟨hsh, _⟩ | ⟨n, c, _, hf⟩
        · rw [hsh] at hi
          cases hi
        · rw [hiff2]
          exact Or.inl hf
      · obtain ⟨i, hi, _⟩ := List.any_eq_true.mp h
        rw [hiff2]
        exact Or.inr (by intro hnil; rw [hnil] at hi; cases hi)
    · intro hf2
      rcases hiff2.mp hf2 with hf1 | hne
      · rcases hshape with ⟨_, hff⟩ | ⟨n, c, hl, _⟩
        · rw [hff] at hf1
          cases hf1
        · refine Bool.or_eq_true_iff.mpr (Or.inl ?_)
          rw [hl]
          simp [isCP]
      · refine Bool.or_eq_true_iff.mpr (Or.inr ?_)
        cases hni : newInvs with
        | nil => exact absurd hni hne
        | cons i0 irest =>
          refine List.any_eq_true.mpr ⟨i0, List.mem_cons_self i0 irest, ?_⟩
          obtain ⟨p, c, hp⟩ := hcp2 i0 (by rw [hni]; exact List.mem_cons_self i0 irest)
          rw [hp]
          rfl
  have hinvs2cp : ∀ i ∈ invs2, isCP i = true := by
    intro i hi
    rw [heq2] at hi
    rcases List.mem_append.mp hi with h | h
    · exact hinvs1cp i h
    · obtain ⟨p, c, hp⟩ := hcp2 i h
      rw [hp]
      rfl
  have hinvs2dcc : ∀ i ∈ invs2, isDccInv i = false := by
    intro i hi
    rw [heq2] at hi
    rcases List.mem_append.mp hi with h | h
    · exact hinvs1dcc i h
    · obtain ⟨p, c, hp⟩ := hcp2 i h
      rw [hp]
      rfl
  have hinvs2msg : ∀ i ∈ invs2, isMsgInv i = false := by
    intro i hi
    rw [heq2] at hi
    rcases List.mem_append.mp hi with h | h
    · exact hinvs1msg i h
    · obtain ⟨p, c, hp⟩ := hcp2 i h
      rw [hp]
      rfl
  have hd : dispatch_message b ctx =
      (match msgStep2 ctx.message b.pCmds ctx1 invs1 found1 with
       | ((_, invs2x, _), false) => (⟨invs2x, [], false, false⟩ : DR)
       | ((ctx2x, invs2x, found2x), true) =>
         if found2x = false ∧ pyStartsWith ctx2x.target "#" = true then
           ⟨invs2x ++ b.onMsg.map (fun h => Inv.msg h ctx2x), [], false, true⟩
         else
           match dccSearch ctx2x.message.toList with
           | none => ⟨invs2x, [], true, true⟩
           | some (fn, ipD, portD, sizeD) =>
             ⟨invs2x ++ b.onDcc.map (fun h => Inv.dcc h
                 (mkDCCFile ctx2x fn.asString (ip_long_to_dotted (digitsToNat ipD))
                   (digitsToNat portD) (digitsToNat sizeD) b.saveDir)), [], true, true⟩) := by
    unfold dispatch_message
    rw [he1]
  rw [hm2] at hd
  replace hd : dispatch_message b ctx =
      (if found2 = false ∧ pyStartsWith ctx2.target "#" = true then
        (⟨invs2 ++ b.onMsg.map (fun h => Inv.msg h ctx2), [], false, true⟩ : DR)
      else
        match dccSearch ctx2.message.toList with
        | none => ⟨invs2, [], true, true⟩
        | some (fn, ipD, portD, sizeD) =>
          ⟨invs2 ++ b.onDcc.map (fun h => Inv.dcc h
              (mkDCCFile ctx2 fn.asString (ip_long_to_dotted (digitsToNat ipD))
                (digitsToNat portD) (digitsToNat sizeD) b.saveDir)), [], true, true⟩) := hd
  have hpre1 := msgStep1_preserves b ctx ctx1 invs1 found1 he1
  have hpre2 := msgStep2_preserves ctx.message b.pCmds ctx1 ctx2 invs1 found1 invs2 found2 true hm2
  have hctx2t : ctx2.target = ctx.target := by rw [hpre2.1, hpre1.1]
  have hctx2m : ctx2.message = ctx.message := by rw [hpre2.2, hpre1.2]
  by_cases hbr : found2 = false ∧ pyStartsWith ctx2.target "#" = true
  · rw [if_pos hbr] at hd
    rw [hd]
    simp only
    refine ⟨trivial, ?_, ?_, ?_⟩
    · constructor
      · intro hc
        cases hc
      · intro hor
        rcases hor with hc | ht
        · rw [List.any_append] at hc
          rcases Bool.or_eq_true_iff.mp hc with hcc | hcc
          · rw [hany] at hcc
            rw [hcc] at hbr
            cases hbr.1
          · obtain ⟨i, hi, hcpi⟩ := List.any_eq_true.mp hcc
            obtain ⟨hh, _, rfl⟩ := List.mem_map.mp hi
            cases hcpi
        · rw [hctx2t] at hbr
          rw [hbr.2] at ht
          cases ht
    · intro _
      constructor
      · intro h hh
        exact ⟨ctx2, List.mem_append_right _ (List.mem_map.mpr ⟨h, hh, rfl⟩)⟩
      · intro i hi
        rcases List.mem_append.mp hi with h | h
        · exact hinvs2dcc i h
        · obtain ⟨hh, _, rfl⟩ := List.mem_map.mp h
          rfl
    · intro hc
      cases hc
  · rw [if_neg hbr] at hd
    have hside : invs2.any isCP = true ∨ pyStartsWith ctx.target "#" = false := by
      rcases Decidable.not_and_iff_or_not.mp hbr with h | h
      · left
        rw [hany]
        exact eq_true_of_ne_false (by simpa using h)
      · right
        rw [← hctx2t]
        exact eq_false_of_ne_true (by simpa using h)
    cases hdcc : dccSearch ctx2.message.toList with
    | none =>
      rw [hdcc] at hd
      rw [hd]
      simp only
      refine ⟨trivial, ?_, ?_, ?_⟩
      · simp only [true_iff]
        exact hside
      · intro hc
        cases hc
      · intro _
        refine ⟨hinvs2msg, ?_, ?_⟩
        · intro _ i hi
          exact hinvs2dcc i hi
        · intro g hg
          rw [← hctx2m, hdcc] at hg
          cases hg
    | some g =>
      obtain ⟨fn, ipD, portD, sizeD⟩ := g
      rw [hdcc] at hd
      rw [hd]
      simp only
      refine ⟨trivial, ?_, ?_, ?_⟩
      · simp only [true_iff]
        rcases hside with h | h
        · left
          rw [List.any_append, Bool.or_eq_true_iff]
          exact Or.inl h
        · right
          exact h
      · intro hc
        cases hc
      · intro _
        refine ⟨?_, ?_, ?_⟩
        · intro i hi
          rcases List.mem_append.mp hi with h | h
          · exact hinvs2msg i h
          · obtain ⟨hh, _, rfl⟩ := List.mem_map.mp h
            rfl
        · intro hnone
          rw [← hctx2m, hdcc] at hnone
          cases hnone
        · intro g2 hg2 h hh
          exact ⟨_, List.mem_append_right _ (List.mem_map.mpr ⟨h, hh, rfl⟩)⟩

/-- Witness for C6's amended theorem at a concrete channel message. -/
theorem C6_dcc_scan_amended_witness :
    ("" ∉ (["<"] : List String)) ∧
      (dispatch_message ⟨"bot", "!", ["x"], ["<"], [], [], [], [], [5], [9], "downloads"⟩
          (mkCtx "#c" "alice" "hello there" "PRIVMSG" "full")).ok = true :=
  ⟨by decide,
   (C6_dcc_scan_amended ⟨"bot", "!", ["x"], ["<"], [], [], [], [], [5], [9], "downloads"⟩
      (mkCtx "#c" "alice" "hello there" "PRIVMSG" "full")
      (by intro hc; exact absurd hc (by with_unfolding_all decide))
      (by decide)).1⟩

/-- Setting a fresh key appends the binding. -/
theorem dictSet_fresh (d : List (String × H)) (k : String) (v : H)
    (h : k ∉ dictKeys d) : dictSet d k v = d ++ [(k, v)] := by
  unfold dictSet
  rw [if_neg]
  intro hc
  obtain ⟨kv, hkv, he⟩ := List.any_eq_true.mp hc
  exact h (List.mem_map.mpr ⟨kv, hkv, by simpa using he⟩)

/-- `pop` distributes over append. -/
theorem dictPop_append (d e : List (String × H)) (k : String) :
    dictPop (d ++ e) k = dictPop d k ++ dictPop e k :=
  List.filter_append d e

/-- Popping an absent key is a no-op. -/
theorem dictPop_fresh (d : List (String × H)) (k : String)
    (h : k ∉ dictKeys d) : dictPop d k = d := by
  unfold dictPop
  rw [List.filter_eq_self]
  intro kv hkv
  simp only [ne_eq, decide_eq_true_eq]
  intro he
  exact h (List.mem_map.mpr ⟨kv, hkv, he⟩)

/-- Folding fresh, distinctly-keyed insertions appends the pairs in order. -/
theorem foldSet_fresh :
    ∀ (ps : List (String × H)) (d : List (String × H)),
      (ps.map Prod.fst).Nodup → (∀ p ∈ ps, p.1 ∉ dictKeys d) →
      ps.foldl (fun d p => dictSet d p.1 p.2) d = d ++ ps := by
  intro ps
  induction ps with
  | nil => intro d _ _; simp
  | cons p ps ih =>
    intro d hnd hf
    rw [List.map_cons] at hnd
    have hnd' := List.nodup_cons.mp hnd
    rw [List.foldl_cons, dictSet_fresh d p.1 p.2 (hf p (List.mem_cons_self p ps))]
    rw [ih (d ++ [(p.1, p.2)]) hnd'.2 ?_]
    · simp
    · intro q hq
      rw [dictKeys, List.map_append]
      intro hmem
      rcases List.mem_append.mp hmem with hm | hm
      · exact hf q (List.mem_cons_of_mem p hq) hm
      · have hq1 : q.1 = p.1 := by simpa using hm
        exact hnd'.1 (hq1 ▸ List.mem_map.mpr ⟨q, hq, rfl⟩)

/-- Popping exactly the keys of a freshly-appended block restores the dict. -/
theorem foldPop_roundtrip :
    ∀ (ps : List (String × H)) (d : List (String × H)),
      (ps.map Prod.fst).Nodup → (∀ p ∈ ps, p.1 ∉ dictKeys d) →
      (ps.map Prod.fst).foldl dictPop (d ++ ps) = d := by
  intro ps
  induction ps with
  | nil => intro d _ _; simp
  | cons p ps ih =>
    intro d hnd hf
    rw [List.map_cons] at hnd
    have hnd' := List.nodup_cons.mp hnd
    rw [List.map_cons, List.foldl_cons, dictPop_append]
    rw [dictPop_fresh d p.1 (hf p (List.mem_cons_self p ps))]
    have hmem : ∀ kv ∈ ps, kv.1 ≠ p.1 := by
      intro kv hkv he
      exact hnd'.1 (he ▸ List.mem_map.mpr ⟨kv, hkv, rfl⟩)
    have hpops : dictPop (p :: ps) p.1 = ps := by
      unfold dictPop
      rw [List.filter_cons, if_neg (by simp)]
      rw [List.filter_eq_self]
      intro kv hkv
      simpa using hmem kv hkv
    rw [hpops]
    exact ih d hnd'.2 (fun q hq => hf q (List.mem_cons_of_mem p hq))

/-- Lookup in a dict extended by fresh distinct pairs finds each pair. -/
theorem dictGet_append_pairs (gbase : List (String × H)) :
    ∀ (ps : List (String × H)),
      (∀ p ∈ ps, p.1 ∉ dictKeys gbase) → (ps.map Prod.fst).Nodup →
      ∀ p ∈ ps, dictGet (gbase ++ ps) p.1 = some p.2 := by
  intro ps hf hnd p hp
  unfold dictGet
  rw [List.find?_append]
  have h1 : gbase.find? (fun kv => kv.1 = p.1) = none := by
    rw [List.find?_eq_none]
    intro kv hkv
    simp only [decide_eq_true_eq]
    intro he
    exact hf p hp (he ▸ List.mem_map.mpr ⟨kv, hkv, rfl⟩)
  rw [h1, Option.none_or]
  clear hf h1
  induction ps with
  | nil => cases hp
  | cons q ps ih =>
    rw [List.map_cons] at hnd
    have hnd' := List.nodup_cons.mp hnd
    rcases List.mem_cons.mp hp with he | hm
    · subst he
      rw [List.find?_cons_of_pos _ (by simp)]
      rfl
    · have hne : ¬(q.1 = p.1) := by
        intro he
        exact hnd'.1 (he ▸ List.mem_map.mpr ⟨p, hm, rfl⟩)
      rw [List.find?_cons_of_neg _ (by simpa using hne)]
      exact ih hnd'.2 hm

/-- `Events.build` computes pointwise. -/
theorem Events.get_build (f : EK → List H) (k : EK) : (Events.build f).get k = f k := by
  cases k <;> rfl

/-- Two event tables with the same per-kind lists are equal. -/
theorem Events.ext_get (e1 e2 : Events) (h : ∀ k, e1.get k = e2.get k) : e1 = e2 := by
  cases e1
  cases e2
  have h1 := h .message
  have h2 := h .join
  have h3 := h .leave
  have h4 := h .raw
  have h5 := h .ready
  have h6 := h .nick
  have h7 := h .dcc
  simp only [Events.get] at h1 h2 h3 h4 h5 h6 h7
  rw [h1, h2, h3, h4, h5, h6, h7]

/-- Importing a cog acts on the command dict as the fold of its command
    registrations. -/
theorem importCog_cmds (acts : List RegAct) :
    ∀ g : Reg, (importCog g acts).cmds =
      (cmdPairs acts).foldl (fun d p => dictSet d p.1 p.2) g.cmds := by
  induction acts with
  | nil => intro g; rfl
  | cons a acts ih =>
    intro g
    unfold importCog at ih ⊢
    rw [List.foldl_cons]
    rw [ih (applyAct g a)]
    cases a <;> rfl

/-- Importing a cog acts on the prefix-command dict as the fold of its
    prefix-command registrations. -/
theorem importCog_pcmds (acts : List RegAct) :
    ∀ g : Reg, (importCog g acts).pcmds =
      (pcmdPairs acts).foldl (fun d p => dictSet d p.1 p.2) g.pcmds := by
  induction acts with
  | nil => intro g; rfl
  | cons a acts ih =>
    intro g
    unfold importCog at ih ⊢
    rw [List.foldl_cons]
    rw [ih (applyAct g a)]
    cases a <;> rfl

/-- Importing a cog acts on the task dict as the fold of its task
    registrations. -/
theorem importCog_tasks (acts : List RegAct) :
    ∀ g : Reg, (importCog g acts).tasks =
      (taskPairs acts).foldl (fun d p => dictSet d p.1 p.2) g.tasks := by
  induction acts with
  | nil => intro g; rfl
  | cons a acts ih =>
    intro g
    unfold importCog at ih ⊢
    rw [List.foldl_cons]
    rw [ih (applyAct g a)]
    cases a <;> rfl

/-- Importing a cog appends its event registrations per kind, in order. -/
theorem importCog_events (acts : List RegAct) :
    ∀ (g : Reg) (k : EK), (importCog g acts).events.get k =
      g.events.get k ++ eventActs k acts := by
  induction acts with
  | nil => intro g k; simp [importCog, eventActs]
  | cons a acts ih =>
    intro g k
    unfold importCog at ih ⊢
    rw [List.foldl_cons, ih (applyAct g a)]
    cases a with
    | cmd n h => simp [applyAct, eventActs]
    | pcmd n h => simp [applyAct, eventActs]
    | task h => simp [applyAct, eventActs]
    | event k2 h =>
      simp only [applyAct, Events.get_build]
      by_cases hk : k2 = k
      · subst hk
        rw [if_pos rfl]
        simp [eventActs, List.filterMap_cons]
      · rw [if_neg (fun he => hk he.symm)]
        simp [eventActs, List.filterMap_cons, hk]

/-- Name-based deduplication is the identity on name-distinct inputs. -/
theorem dedupByName_nodup :
    ∀ (l acc : List H), ((acc ++ l).map H.pyName).Nodup → dedupByName acc l = acc ++ l := by
  intro l
  induction l with
  | nil => intro acc _; simp [dedupByName]
  | cons h l ih =>
    intro acc hnd
    unfold dedupByName
    rw [List.foldl_cons]
    have hnotin : acc.any (fun h2 => h2.pyName = h.pyName) = false := by
      rw [List.any_eq_false]
      intro h2 h2m
      simp only [decide_eq_true_eq]
      intro he
      rw [List.map_append, List.map_cons] at hnd
      have := (List.nodup_append.mp hnd).2.2
      exact this (List.mem_map.mpr ⟨h2, h2m, rfl⟩)
        (by rw [he]; exact List.mem_cons_self _ _)
    rw [hnotin]
    simp only [Bool.false_eq_true, if_false]
    have := ih (acc ++ [h]) (by simpa using hnd)
    unfold dedupByName at this
    rw [this]
    simp

/-- Filtering out the members of the base from `base ++ fresh` leaves
    `fresh`. -/
theorem filter_not_mem_append (G A : List H) (h : ∀ a ∈ A, a ∉ G) :
    (G ++ A).filter (fun x => ¬ G.contains x) = A := by
  rw [List.filter_append]
  have h1 : G.filter (fun x => ¬ G.contains x) = [] := by
    rw [List.filter_eq_nil_iff]
    intro a ha
    simp [List.elem_iff, ha]
  have h2 : A.filter (fun x => ¬ G.contains x) = A := by
    rw [List.filter_eq_self]
    intro a ha
    simp [List.elem_iff, h a ha]
  rw [h1, h2, List.nil_append]

/-- Erasing the members of a fresh distinct block from `base ++ block`
    restores the base. -/
theorem eraseH_foldl :
    ∀ (A G : List H), A.Nodup → (∀ a ∈ A, a ∉ G) →
      A.foldl eraseH (G ++ A) = G := by
  intro A
  induction A with
  | nil => intro G _ _; simp
  | cons a A ih =>
    intro G hnd hf
    have hnd' := List.nodup_cons.mp hnd
    rw [List.foldl_cons]
    have he1 : eraseH (G ++ a :: A) a = G ++ A := by
      unfold eraseH
      rw [if_pos (by simp [List.elem_iff])]
      rw [List.erase_append_right _ (hf a (List.mem_cons_self a A))]
      rw [List.erase_cons_head]
    rw [he1]
    exact ih G hnd'.2 (fun x hx => hf x (List.mem_cons_of_mem a hx))

/-- A kind absent from the source list is absent from the built events map. -/
theorem newmap_find_none (added : EK → List H) :
    ∀ (L : List EK) (j : EK), j ∉ L →
      (L.filterMap (fun k => if added k = [] then none else some (k, added k))).find?
        (fun kh => kh.1 = j) = none := by
  intro L
  induction L with
  | nil => intro j _; rfl
  | cons k L ih =>
    intro j hj
    rw [List.filterMap_cons]
    by_cases he : added k = []
    · rw [if_pos he]
      exact ih j (fun hm => hj (List.mem_cons_of_mem k hm))
    · rw [if_neg he]
      rw [List.find?_cons_of_neg _ (by
        simp only [decide_eq_true_eq]
        intro hkj
        exact hj (hkj ▸ List.mem_cons_self k L))]
      exact ih j (fun hm => hj (List.mem_cons_of_mem k hm))

/-- Looking a kind up in the built events map yields its additions (when
    non-empty). -/
theorem newmap_find (added : EK → List H) :
    ∀ (L : List EK) (j : EK), j ∈ L → L.Nodup →
      (L.filterMap (fun k => if added k = [] then none else some (k, added k))).find?
        (fun kh => kh.1 = j) =
      (if added j = [] then none else some (j, added j)) := by
  intro L
  induction L with
  | nil => intro j hj; cases hj
  | cons k L ih =>
    intro j hj hnd
    have hnd' := List.nodup_cons.mp hnd
    rw [List.filterMap_cons]
    by_cases hkj : k = j
    · subst hkj
      by_cases he : added k = []
      · rw [if_pos he]
        exact newmap_find_none added L k hnd'.1
      · rw [if_neg he]
        exact List.find?_cons_of_pos _ (by simp)
    · have hjL : j ∈ L := by
        rcases List.mem_cons.mp hj with he | hm
        · exact absurd he.symm hkj
        · exact hm
      by_cases he : added k = []
      · rw [if_pos he]
        exact ih j hjL hnd'.2
      · rw [if_neg he]
        have hc : List.find? (fun kh => decide (kh.1 = j))
            ((k, added k) :: (L.filterMap fun k2 =>
              if added k2 = [] then none else some (k2, added k2))) =
            (if added j = [] then none else some (j, added j)) := by
          rw [List.find?_cons_of_neg _ (by simpa using hkj)]
          exact ih j hjL hnd'.2
        exact hc

/-- The keys of the built events map are distinct. -/
theorem newmap_keys_nodup (added : EK → List H) :
    ∀ (L : List EK), L.Nodup →
      ((L.filterMap (fun k => if added k = [] then none else some (k, added k))).map
        Prod.fst).Nodup := by
  intro L
  induction L with
  | nil => intro _; simp
  | cons k L ih =>
    intro hnd
    have hnd' := List.nodup_cons.mp hnd
    rw [List.filterMap_cons]
    by_cases he : added k = []
    · rw [if_pos he]
      exact ih hnd'.2
    · rw [if_neg he]
      have hc : ((((k, added k) :: (L.filterMap fun k2 =>
          if added k2 = [] then none else some (k2, added k2))).map Prod.fst)).Nodup := by
        rw [List.map_cons, List.nodup_cons]
        refine ⟨?_, ih hnd'.2⟩
        intro hmem
        obtain ⟨kh, hkh, hfst⟩ := List.mem_map.mp hmem
        obtain ⟨k2, hk2, hf⟩ := List.mem_filterMap.mp hkh
        by_cases he2 : added k2 = []
        · rw [if_pos he2] at hf
          cases hf
        · rw [if_neg he2] at hf
          cases hf
          have hk2k : k2 = k := by simpa using hfst
          exact hnd'.1 (hk2k ▸ hk2)
      exact hc

/-- The per-kind value of the unload removal fold. -/
theorem unload_events_fold (rm : List H → H → List H) :
    ∀ (entries : List (EK × List H)) (ev : Events) (j : EK),
      ((entries.map Prod.fst).Nodup) →
      (entries.foldl (fun ev kh => Events.build (fun j2 =>
        if j2 = kh.1 then kh.2.foldl rm (ev.get j2) else ev.get j2)) ev).get j =
      (match entries.find? (fun kh => kh.1 = j) with
       | some kh => kh.2.foldl rm (ev.get j)
       | none => ev.get j) := by
  intro entries
  induction entries with
  | nil => intro ev j _; rfl
  | cons kh entries ih =>
    intro ev j hnd
    rw [List.map_cons] at hnd
    have hnd' := List.nodup_cons.mp hnd
    rw [List.foldl_cons]
    rw [ih _ j hnd'.2]
    by_cases hkj : kh.1 = j
    · rw [List.find?_cons_of_pos _ (by simpa using hkj)]
      have hfn : entries.find? (fun kh2 => kh2.1 = j) = none := by
        rw [List.find?_eq_none]
        intro kh2 hkh2
        simp only [decide_eq_true_eq]
        intro he
        exact hnd'.1 (hkj ▸ he ▸ List.mem_map.mpr ⟨kh2, hkh2, rfl⟩)
      rw [hfn]
      simp only
      rw [Events.get_build, if_pos hkj.symm]
    · rw [List.find?_cons_of_neg _ (by simpa using hkj)]
      cases hfe : entries.find? (fun kh2 => kh2.1 = j) with
      | none =>
        simp only
        rw [Events.get_build, if_neg (fun he => hkj he.symm)]
      | some kh2 =>
        simp only
        rw [Events.get_build, if_neg (fun he => hkj he.symm)]

/-- The post-minus-pre key diff of a fresh append is the appended keys. -/
theorem newKeys_eq (gbase ps : List (String × H))
    (hf : ∀ p ∈ ps, p.1 ∉ dictKeys gbase) :
    (dictKeys (gbase ++ ps)).filter (fun k => ¬ (dictKeys gbase).contains k) =
      ps.map Prod.fst := by
  unfold dictKeys
  rw [List.map_append, List.filter_append]
  have h1 : (gbase.map Prod.fst).filter
      (fun k => ¬ (gbase.map Prod.fst).contains k) = [] := by
    rw [List.filter_eq_nil_iff]
    intro a ha
    simp [List.elem_iff, ha]
  have h2 : (ps.map Prod.fst).filter
      (fun k => ¬ (gbase.map Prod.fst).contains k) = ps.map Prod.fst := by
    rw [List.filter_eq_self]
    intro a ha
    obtain ⟨p, hp, rfl⟩ := List.mem_map.mp ha
    have hnm : p.1 ∉ dictKeys gbase := hf p hp
    rw [dictKeys] at hnm
    simp only [decide_eq_true_eq]
    intro hc
    exact hnm (List.elem_iff.mp hc)
  rw [h1, h2, List.nil_append]

/-- Field-wise extensionality for the registry quadruple. -/
theorem Reg.ext_fields (r1 r2 : Reg) (h1 : r1.cmds = r2.cmds) (h2 : r1.pcmds = r2.pcmds)
    (h3 : r1.tasks = r2.tasks) (h4 : r1.events = r2.events) : r1 = r2 := by
  cases r1
  cases r2
  simp only at h1 h2 h3 h4
  rw [h1, h2, h3, h4]

/-- Folding the copy-step over keys that all resolve is folding the
    assignments of the resolved pairs. -/
theorem foldGetSet (G : List (String × H)) :
    ∀ (ps : List (String × H)) (d : List (String × H)),
      (∀ p ∈ ps, dictGet G p.1 = some p.2) →
      (ps.map Prod.fst).foldl (getSetStep G) d =
        ps.foldl (fun d p => dictSet d p.1 p.2) d := by
  intro ps
  induction ps with
  | nil => intro d _; rfl
  | cons p ps ih =>
    intro d hget
    rw [List.map_cons, List.foldl_cons, List.foldl_cons]
    have hstep : getSetStep G d p.1 = dictSet d p.1 p.2 := by
      unfold getSetStep
      rw [hget p (List.mem_cons_self p ps)]
    rw [hstep]
    exact ih (dictSet d p.1 p.2) (fun q hq => hget q (List.mem_cons_of_mem p hq))

/-- `load_cog` on a not-yet-loaded cog name: the let-expanded result. -/
theorem loadCog_new (s : CogSt) (cogName : String) (acts : List RegAct)
    (hany : (s.cogs.any fun c => c.1 = cogName) = false) :
    loadCog s cogName acts = ((0, true),
      { g := { importCog s.g acts with events := Events.build (fun k =>
            (importCog s.g acts).events.get k ++
              (if s.aliased = true then
                ((importCog s.g acts).events.get k).filter
                  (fun h => ¬ (s.g.events.get k).contains h)
               else [])) }
        b := { cmds := ((dictKeys (importCog s.g acts).cmds).filter
                  (fun k => ¬ (dictKeys s.g.cmds).contains k)).foldl
                  (getSetStep (importCog s.g acts).cmds) s.b.cmds
               pcmds := ((dictKeys (importCog s.g acts).pcmds).filter
                  (fun k => ¬ (dictKeys s.g.pcmds).contains k)).foldl
                  (getSetStep (importCog s.g acts).pcmds) s.b.pcmds
               tasks := ((dictKeys (importCog s.g acts).tasks).filter
                  (fun k => ¬ (dictKeys s.g.tasks).contains k)).foldl
                  (getSetStep (importCog s.g acts).tasks) s.b.tasks
               events := Events.build (fun k =>
                 dedupByName (dedupByName [] (s.g.events.get k))
                   (((importCog s.g acts).events.get k).filter
                     (fun h => ¬ (s.g.events.get k).contains h))) }
        cogs := s.cogs ++ [(cogName, CogBk.mk
            ((dictKeys (importCog s.g acts).cmds).filter
              (fun k => ¬ (dictKeys s.g.cmds).contains k))
            ((dictKeys (importCog s.g acts).pcmds).filter
              (fun k => ¬ (dictKeys s.g.pcmds).contains k))
            ((dictKeys (importCog s.g acts).tasks).filter
              (fun k => ¬ (dictKeys s.g.tasks).contains k))
            (EK.all.filterMap (fun k =>
              if ((importCog s.g acts).events.get k).filter
                   (fun h => ¬ (s.g.events.get k).contains h) = []
              then none
              else some (k, ((importCog s.g acts).events.get k).filter
                   (fun h => ¬ (s.g.events.get k).contains h)))))]
        aliased := false }) := by
  unfold loadCog
  rw [hany]
  with_unfolding_all rfl

/-- `unload_cog` on a found cog: the let-expanded result. -/
theorem unloadCog_found (s : CogSt) (cogName : String) (bk : CogBk)
    (hf : s.cogs.find? (fun c => c.1 = cogName) = some (cogName, bk)) :
    unloadCog s cogName = ((0, true),
      { g := { cmds := bk.cmdsAdded.foldl dictPop s.g.cmds
               pcmds := bk.pcmdsAdded.foldl dictPop s.g.pcmds
               tasks := bk.tasksAdded.foldl dictPop s.g.tasks
               events := bk.eventsAdded.foldl (fun ev kh => Events.build (fun j =>
                 if j = kh.1 then kh.2.foldl
                   (fun l h => if s.aliased = true then eraseH (eraseH l h) h
                     else eraseH l h) (ev.get j)
                 else ev.get j)) s.b.events }
        b := { cmds := bk.cmdsAdded.foldl dictPop s.b.cmds
               pcmds := bk.pcmdsAdded.foldl dictPop s.b.pcmds
               tasks := bk.tasksAdded.foldl dictPop s.b.tasks
               events := bk.eventsAdded.foldl (fun ev kh => Events.build (fun j =>
                 if j = kh.1 then kh.2.foldl
                   (fun l h => if s.aliased = true then eraseH (eraseH l h) h
                     else eraseH l h) (ev.get j)
                 else ev.get j)) s.b.events }
        cogs := s.cogs.filter (fun c2 => c2.1 ≠ cogName)
        aliased := true }) := by
  unfold unloadCog
  rw [hf]

/-- C3 counterexample: a cog whose single registration re-registers the
    already-present command key `ping` with its own handler.  `load_cog`
    returns `(0, true)` and the subsequent `unload_cog` returns `(0, true)`,
    yet the process-wide command registry does not return to its pre-load
    state: the overwrite is not recorded in the bookkeeping set difference
    (lines 388-391 of irc.py), so unload pops nothing and the cog's handler
    stays installed under `ping`. -/
theorem C3_counterexample :
    (loadCog pingCogSt "dup" dupActs).1 = (0, true) ∧
    (unloadCog (loadCog pingCogSt "dup" dupActs).2 "dup").1 = (0, true) ∧
    (unloadCog (loadCog pingCogSt "dup" dupActs).2 "dup").2.g.cmds ≠
      pingCogSt.g.cmds := by
  refine ⟨?_, ?_, ?_⟩
  · with_unfolding_all rfl
  · with_unfolding_all rfl
  · intro h
    have h2 : [("ping", (⟨2, "ping_v2"⟩ : H))] = [("ping", (⟨1, "ping_v1"⟩ : H))] := by
      calc [("ping", (⟨2, "ping_v2"⟩ : H))]
          = (unloadCog (loadCog pingCogSt "dup" dupActs).2 "dup").2.g.cmds := by
            with_unfolding_all rfl
        _ = pingCogSt.g.cmds := h
        _ = [("ping", (⟨1, "ping_v1"⟩ : H))] := by with_unfolding_all rfl
    have h3 : (2 : Nat) = 1 := congrArg (fun l => (l.headD ("", ⟨0, ""⟩)).2.hid) h2
    exact absurd h3 (by decide)

/-- C3 (amended): for a cog name not yet loaded whose registrations use
    fresh keys — command, prefix-command and task keys pairwise distinct and
    absent from both the process-wide and the Bot registries, event-handler
    `__name__`s pairwise distinct per kind and absent from the existing
    lists — on a Bot whose event table equals the process-wide one and
    carries name-distinct handlers, `load_cog` returns `(0, true)`, the
    subsequent `unload_cog` returns `(0, true)`, and the process-wide
    registries, the Bot registries and the cog table all return exactly to
    their pre-load state. -/
theorem C3_load_unload_amended
    (s : CogSt) (cogName : String) (acts : List RegAct)
    (hcog : ∀ c ∈ s.cogs, c.1 ≠ cogName)
    (hcmdn : ((cmdPairs acts).map Prod.fst).Nodup)
    (hcmdf : ∀ p ∈ cmdPairs acts, p.1 ∉ dictKeys s.g.cmds ∧ p.1 ∉ dictKeys s.b.cmds)
    (hpcn : ((pcmdPairs acts).map Prod.fst).Nodup)
    (hpcf : ∀ p ∈ pcmdPairs acts, p.1 ∉ dictKeys s.g.pcmds ∧ p.1 ∉ dictKeys s.b.pcmds)
    (htkn : ((taskPairs acts).map Prod.fst).Nodup)
    (htkf : ∀ p ∈ taskPairs acts, p.1 ∉ dictKeys s.g.tasks ∧ p.1 ∉ dictKeys s.b.tasks)
    (hevsync : s.b.events = s.g.events)
    (hevnodup : ∀ k, ((s.g.events.get k).map H.pyName).Nodup)
    (hactn : ∀ k, ((eventActs k acts).map H.pyName).Nodup)
    (hactf : ∀ k, ∀ a ∈ eventActs k acts, a.pyName ∉ (s.g.events.get k).map H.pyName) :
    (loadCog s cogName acts).1 = (0, true) ∧
    (unloadCog (loadCog s cogName acts).2 cogName).1 = (0, true) ∧
    (unloadCog (loadCog s cogName acts).2 cogName).2.g = s.g ∧
    (unloadCog (loadCog s cogName acts).2 cogName).2.b = s.b ∧
    (unloadCog (loadCog s cogName acts).2 cogName).2.cogs = s.cogs := by
  have hany : (s.cogs.any fun c => c.1 = cogName) = false := by
    rw [List.any_eq_false]
    intro c hc
    simpa using hcog c hc
  have hload := loadCog_new s cogName acts hany
  have hGc : (importCog s.g acts).cmds = s.g.cmds ++ cmdPairs acts := by
    rw [importCog_cmds acts s.g]
    exact foldSet_fresh (cmdPairs acts) s.g.cmds hcmdn (fun p hp => (hcmdf p hp).1)
  have hGp : (importCog s.g acts).pcmds = s.g.pcmds ++ pcmdPairs acts := by
    rw [importCog_pcmds acts s.g]
    exact foldSet_fresh (pcmdPairs acts) s.g.pcmds hpcn (fun p hp => (hpcf p hp).1)
  have hGt : (importCog s.g acts).tasks = s.g.tasks ++ taskPairs acts := by
    rw [importCog_tasks acts s.g]
    exact foldSet_fresh (taskPairs acts) s.g.tasks htkn (fun p hp => (htkf p hp).1)
  have hObjF : ∀ k, ∀ a ∈ eventActs k acts, a ∉ s.g.events.get k := by
    intro k a ha hm
    exact hactf k a ha (List.mem_map.mpr ⟨a, hm, rfl⟩)
  have hAdded : ∀ k, ((importCog s.g acts).events.get k).filter
      (fun h => ¬ (s.g.events.get k).contains h) = eventActs k acts := by
    intro k
    rw [importCog_events acts s.g k]
    exact filter_not_mem_append _ _ (hObjF k)
  have hNewC : (dictKeys (importCog s.g acts).cmds).filter
      (fun k => ¬ (dictKeys s.g.cmds).contains k) = (cmdPairs acts).map Prod.fst := by
    rw [hGc]
    exact newKeys_eq s.g.cmds (cmdPairs acts) (fun p hp => (hcmdf p hp).1)
  have hNewP : (dictKeys (importCog s.g acts).pcmds).filter
      (fun k => ¬ (dictKeys s.g.pcmds).contains k) = (pcmdPairs acts).map Prod.fst := by
    rw [hGp]
    exact newKeys_eq s.g.pcmds (pcmdPairs acts) (fun p hp => (hpcf p hp).1)
  have hNewT : (dictKeys (importCog s.g acts).tasks).filter
      (fun k => ¬ (dictKeys s.g.tasks).contains k) = (taskPairs acts).map Prod.fst := by
    rw [hGt]
    exact newKeys_eq s.g.tasks (taskPairs acts) (fun p hp => (htkf p hp).1)
  have h1res : (loadCog s cogName acts).1 = (0, true) := by rw [hload]
  have h1al : (loadCog s cogName acts).2.aliased = false := by rw [hload]
  have h1gc : (loadCog s cogName acts).2.g.cmds = s.g.cmds ++ cmdPairs acts := by
    rw [hload]
    exact hGc
  have h1gp : (loadCog s cogName acts).2.g.pcmds = s.g.pcmds ++ pcmdPairs acts := by
    rw [hload]
    exact hGp
  have h1gt : (loadCog s cogName acts).2.g.tasks = s.g.tasks ++ taskPairs acts := by
    rw [hload]
    exact hGt
  have h1bc : (loadCog s cogName acts).2.b.cmds = s.b.cmds ++ cmdPairs acts := by
    rw [hload]
    show ((dictKeys (importCog s.g acts).cmds).filter
        (fun k => ¬ (dictKeys s.g.cmds).contains k)).foldl
        (getSetStep (importCog s.g acts).cmds) s.b.cmds = s.b.cmds ++ cmdPairs acts
    have hget : ∀ p ∈ cmdPairs acts, dictGet (importCog s.g acts).cmds p.1 = some p.2 := by
      intro p hp
      rw [hGc]
      exact dictGet_append_pairs s.g.cmds (cmdPairs acts)
        (fun q hq => (hcmdf q hq).1) hcmdn p hp
    rw [hNewC, foldGetSet (importCog s.g acts).cmds (cmdPairs acts) s.b.cmds hget]
    exact foldSet_fresh (cmdPairs acts) s.b.cmds hcmdn (fun p hp => (hcmdf p hp).2)
  have h1bp : (loadCog s cogName acts).2.b.pcmds = s.b.pcmds ++ pcmdPairs acts := by
    rw [hload]
    show ((dictKeys (importCog s.g acts).pcmds).filter
        (fun k => ¬ (dictKeys s.g.pcmds).contains k)).foldl
        (getSetStep (importCog s.g acts).pcmds) s.b.pcmds = s.b.pcmds ++ pcmdPairs acts
    have hget : ∀ p ∈ pcmdPairs acts, dictGet (importCog s.g acts).pcmds p.1 = some p.2 := by
      intro p hp
      rw [hGp]
      exact dictGet_append_pairs s.g.pcmds (pcmdPairs acts)
        (fun q hq => (hpcf q hq).1) hpcn p hp
    rw [hNewP, foldGetSet (importCog s.g acts).pcmds (pcmdPairs acts) s.b.pcmds hget]
    exact foldSet_fresh (pcmdPairs acts) s.b.pcmds hpcn (fun p hp => (hpcf p hp).2)
  have h1bt : (loadCog s cogName acts).2.b.tasks = s.b.tasks ++ taskPairs acts := by
    rw [hload]
    show ((dictKeys (importCog s.g acts).tasks).filter
        (fun k => ¬ (dictKeys s.g.tasks).contains k)).foldl
        (getSetStep (importCog s.g acts).tasks) s.b.tasks = s.b.tasks ++ taskPairs acts
    have hget : ∀ p ∈ taskPairs acts, dictGet (importCog s.g acts).tasks p.1 = some p.2 := by
      intro p hp
      rw [hGt]
      exact dictGet_append_pairs s.g.tasks (taskPairs acts)
        (fun q hq => (htkf q hq).1) htkn p hp
    rw [hNewT, foldGetSet (importCog s.g acts).tasks (taskPairs acts) s.b.tasks hget]
    exact foldSet_fresh (taskPairs acts) s.b.tasks htkn (fun p hp => (htkf p hp).2)
  have hGAnames : ∀ k, ((s.g.events.get k ++ eventActs k acts).map H.pyName).Nodup := by
    intro k
    rw [List.map_append, List.nodup_append]
    refine ⟨hevnodup k, hactn k, ?_⟩
    intro x hx hxa
    obtain ⟨a, ha, rfl⟩ := List.mem_map.mp hxa
    exact hactf k a ha hx
  have h1be : ∀ k, (loadCog s cogName acts).2.b.events.get k =
      s.g.events.get k ++ eventActs k acts := by
    intro k
    rw [hload]
    show (Events.build (fun k2 => dedupByName (dedupByName [] (s.g.events.get k2))
        (((importCog s.g acts).events.get k2).filter
          (fun h => ¬ (s.g.events.get k2).contains h)))).get k =
      s.g.events.get k ++ eventActs k acts
    simp only [Events.get_build]
    rw [hAdded k]
    have hnd1 : (([] ++ s.g.events.get k).map H.pyName).Nodup := by
      simpa using hevnodup k
    rw [dedupByName_nodup (s.g.events.get k) [] hnd1, List.nil_append]
    exact dedupByName_nodup (eventActs k acts) (s.g.events.get k) (hGAnames k)
  have hmap : EK.all.filterMap (fun k =>
      if ((importCog s.g acts).events.get k).filter
           (fun h => ¬ (s.g.events.get k).contains h) = []
      then none
      else some (k, ((importCog s.g acts).events.get k).filter
           (fun h => ¬ (s.g.events.get k).contains h))) =
      EK.all.filterMap (fun k =>
        if eventActs k acts = [] then none else some (k, eventActs k acts)) :=
    List.filterMap_congr (fun k _ => by rw [hAdded k])
  have h1cogs : (loadCog s cogName acts).2.cogs = s.cogs ++
      [(cogName, CogBk.mk ((cmdPairs acts).map Prod.fst)
        ((pcmdPairs acts).map Prod.fst) ((taskPairs acts).map Prod.fst)
        (EK.all.filterMap (fun k =>
          if eventActs k acts = [] then none else some (k, eventActs k acts))))] := by
    rw [hload]
    show s.cogs ++ [(cogName, CogBk.mk
        ((dictKeys (importCog s.g acts).cmds).filter
          (fun k => ¬ (dictKeys s.g.cmds).contains k))
        ((dictKeys (importCog s.g acts).pcmds).filter
          (fun k => ¬ (dictKeys s.g.pcmds).contains k))
        ((dictKeys (importCog s.g acts).tasks).filter
          (fun k => ¬ (dictKeys s.g.tasks).contains k))
        (EK.all.filterMap (fun k =>
          if ((importCog s.g acts).events.get k).filter
               (fun h => ¬ (s.g.events.get k).contains h) = []
          then none
          else some (k, ((importCog s.g acts).events.get k).filter
               (fun h => ¬ (s.g.events.get k).contains h)))))] = _
    rw [hNewC, hNewP, hNewT, hmap]
  have hfind : ((loadCog s cogName acts).2.cogs).find? (fun c => c.1 = cogName) =
      some (cogName, CogBk.mk ((cmdPairs acts).map Prod.fst)
        ((pcmdPairs acts).map Prod.fst) ((taskPairs acts).map Prod.fst)
        (EK.all.filterMap (fun k =>
          if eventActs k acts = [] then none else some (k, eventActs k acts)))) := by
    rw [h1cogs, List.find?_append]
    have h0 : s.cogs.find? (fun c => c.1 = cogName) = none := by
      rw [List.find?_eq_none]
      intro c hc
      simpa using hcog c hc
    rw [h0, Option.none_or]
    rw [List.find?_cons_of_pos _ (by simp)]
  have hunl := unloadCog_found (loadCog s cogName acts).2 cogName
    (CogBk.mk ((cmdPairs acts).map Prod.fst)
      ((pcmdPairs acts).map Prod.fst) ((taskPairs acts).map Prod.fst)
      (EK.all.filterMap (fun k =>
        if eventActs k acts = [] then none else some (k, eventActs k acts)))) hfind
  have h2res : (unloadCog (loadCog s cogName acts).2 cogName).1 = (0, true) := by
    rw [hunl]
  have h2gc : (unloadCog (loadCog s cogName acts).2 cogName).2.g.cmds = s.g.cmds := by
    rw [hunl]
    show ((cmdPairs acts).map Prod.fst).foldl dictPop
      ((loadCog s cogName acts).2.g.cmds) = s.g.cmds
    rw [h1gc]
    exact foldPop_roundtrip (cmdPairs acts) s.g.cmds hcmdn (fun p hp => (hcmdf p hp).1)
  have h2gp : (unloadCog (loadCog s cogName acts).2 cogName).2.g.pcmds = s.g.pcmds := by
    rw [hunl]
    show ((pcmdPairs acts).map Prod.fst).foldl dictPop
      ((loadCog s cogName acts).2.g.pcmds) = s.g.pcmds
    rw [h1gp]
    exact foldPop_roundtrip (pcmdPairs acts) s.g.pcmds hpcn (fun p hp => (hpcf p hp).1)
  have h2gt : (unloadCog (loadCog s cogName acts).2 cogName).2.g.tasks = s.g.tasks := by
    rw [hunl]
    show ((taskPairs acts).map Prod.fst).foldl dictPop
      ((loadCog s cogName acts).2.g.tasks) = s.g.tasks
    rw [h1gt]
    exact foldPop_roundtrip (taskPairs acts) s.g.tasks htkn (fun p hp => (htkf p hp).1)
  have h2bc : (unloadCog (loadCog s cogName acts).2 cogName).2.b.cmds = s.b.cmds := by
    rw [hunl]
    show ((cmdPairs acts).map Prod.fst).foldl dictPop
      ((loadCog s cogName acts).2.b.cmds) = s.b.cmds
    rw [h1bc]
    exact foldPop_roundtrip (cmdPairs acts) s.b.cmds hcmdn (fun p hp => (hcmdf p hp).2)
  have h2bp : (unloadCog (loadCog s cogName acts).2 cogName).2.b.pcmds = s.b.pcmds := by
    rw [hunl]
    show ((pcmdPairs acts).map Prod.fst).foldl dictPop
      ((loadCog s cogName acts).2.b.pcmds) = s.b.pcmds
    rw [h1bp]
    exact foldPop_roundtrip (pcmdPairs acts) s.b.pcmds hpcn (fun p hp => (hpcf p hp).2)
  have h2bt : (unloadCog (loadCog s cogName acts).2 cogName).2.b.tasks = s.b.tasks := by
    rw [hunl]
    show ((taskPairs acts).map Prod.fst).foldl dictPop
      ((loadCog s cogName acts).2.b.tasks) = s.b.tasks
    rw [h1bt]
    exact foldPop_roundtrip (taskPairs acts) s.b.tasks htkn (fun p hp => (htkf p hp).2)
  have h2ev : ∀ j, (unloadCog (loadCog s cogName acts).2 cogName).2.g.events.get j =
      s.g.events.get j := by
    intro j
    rw [hunl]
    show ((EK.all.filterMap (fun k =>
        if eventActs k acts = [] then none else some (k, eventActs k acts))).foldl
        (fun ev kh => Events.build (fun j2 => if j2 = kh.1 then kh.2.foldl
          (fun l h => if (loadCog s cogName acts).2.aliased = true
            then eraseH (eraseH l h) h else eraseH l h)
          (ev.get j2) else ev.get j2)) ((loadCog s cogName acts).2.b.events)).get j =
      s.g.events.get j
    have hrm : (fun (l : List H) (h : H) =>
        if (loadCog s cogName acts).2.aliased = true
        then eraseH (eraseH l h) h else eraseH l h) = eraseH := by
      funext l h
      rw [h1al]
      simp
    rw [hrm]
    rw [unload_events_fold eraseH _ _ j
      (newmap_keys_nodup (fun k => eventActs k acts) EK.all (by decide))]
    rw [newmap_find (fun k => eventActs k acts) EK.all j (by cases j <;> decide) (by decide)]
    by_cases hA : eventActs j acts = []
    · rw [if_pos hA]
      show (loadCog s cogName acts).2.b.events.get j = s.g.events.get j
      rw [h1be j, hA, List.append_nil]
    · rw [if_neg hA]
      show (eventActs j acts).foldl eraseH
        ((loadCog s cogName acts).2.b.events.get j) = s.g.events.get j
      rw [h1be j]
      exact eraseH_foldl (eventActs j acts) (s.g.events.get j)
        (List.Nodup.of_map _ (hactn j)) (hObjF j)
  have h2evB : (unloadCog (loadCog s cogName acts).2 cogName).2.b.events =
      (unloadCog (loadCog s cogName acts).2 cogName).2.g.events := by
    rw [hunl]
  have h2cogs : (unloadCog (loadCog s cogName acts).2 cogName).2.cogs = s.cogs := by
    rw [hunl]
    show ((loadCog s cogName acts).2.cogs).filter (fun c2 => c2.1 ≠ cogName) = s.cogs
    rw [h1cogs, List.filter_append]
    have hs1 : s.cogs.filter (fun c2 => c2.1 ≠ cogName) = s.cogs := by
      rw [List.filter_eq_self]
      intro c hc
      simpa using hcog c hc
    have hs2 : ([(cogName, CogBk.mk ((cmdPairs acts).map Prod.fst)
        ((pcmdPairs acts).map Prod.fst) ((taskPairs acts).map Prod.fst)
        (EK.all.filterMap (fun k =>
          if eventActs k acts = [] then none else some (k, eventActs k acts))))] :
        List (String × CogBk)).filter (fun c2 => c2.1 ≠ cogName) = [] := by
      simp
    rw [hs1, hs2, List.append_nil]
  refine ⟨h1res, h2res, ?_, ?_, h2cogs⟩
  · exact Reg.ext_fields _ _ h2gc h2gp h2gt (Events.ext_get _ _ h2ev)
  · refine Reg.ext_fields _ _ h2bc h2bp h2bt ?_
    rw [h2evB, hevsync]
    exact Events.ext_get _ _ h2ev

/-- C3 witness: a concrete well-behaved cog loaded into and unloaded from a
    freshly-initialised bot, through the amended round-trip theorem. -/
theorem C3_load_unload_amended_witness :
    (loadCog freshCogSt "greet" greetActs).1 = (0, true) ∧
    (unloadCog (loadCog freshCogSt "greet" greetActs).2 "greet").1 = (0, true) ∧
    (unloadCog (loadCog freshCogSt "greet" greetActs).2 "greet").2.g = freshCogSt.g ∧
    (unloadCog (loadCog freshCogSt "greet" greetActs).2 "greet").2.b = freshCogSt.b ∧
    (unloadCog (loadCog freshCogSt "greet" greetActs).2 "greet").2.cogs =
      freshCogSt.cogs :=
  C3_load_unload_amended freshCogSt "greet" greetActs
    (by decide) (by decide) (by decide) (by decide) (by decide) (by decide)
    (by decide) (by decide)
    (by intro k; cases k <;> decide)
    (by intro k; cases k <;> decide)
    (by intro k; cases k <;> decide)

end NIRC
